import Mathlib

/-!
# Franka logic-expression language: a verified shallow embedding

This development embeds the two evaluators of the franka-lang repository:

* the strict evaluator (`FrankaInterpreter.evaluate` and its `execute*`
  helpers) that reduces a YAML-shaped expression tree against a mutable
  variable environment, raising `Error` on any malformed input; and
* the diagnostic evaluator (`tryEvaluate` in `treeUtils.ts`) together with
  `generatePathId` and the display-tree builder `buildLogicTree`, which walk
  a related tree dialect while recording a coverage set of path identifiers
  and never letting a failure escape.

Modelling decisions, each noted again at the definition it concerns:

* JSON/YAML values are the inductive `JVal`; JavaScript objects are ordered
  association lists (JS objects enumerate string keys in insertion order;
  duplicate keys cannot arise in a parsed document, and lookups here take the
  first occurrence).
* Numbers are modelled as `Int`: every numeric literal exercised by the
  claims is an integer, and no claim depends on float behaviour.
* Recursion depth is an explicit fuel parameter, the shallow image of the
  JavaScript call stack: fuel `0` is the stack-overflow signal.  The strict
  evaluator propagates it as an error, like the uncaught `RangeError` would
  propagate; the diagnostic evaluator's per-node `try/catch` converts any
  failure of a sub-call into the `<error>` placeholder.
* Mutation of `this.variables` is explicit state threading: `evaluate`
  returns the environment as mutated so far even when it fails, exactly as
  the thrown JS exception leaves the object field behind.
-/

namespace Franka

/-- A JSON/YAML-shaped runtime value: the `any` flowing through both
evaluators.  Objects are insertion-ordered association lists. -/
inductive JVal where
  | null
  | bool (b : Bool)
  | num (n : Int)
  | str (s : String)
  | arr (items : List JVal)
  | obj (fields : List (String × JVal))
deriving Repr, Inhabited

/-- The strict evaluator's variable environment (`this.variables`). -/
abbrev Env := List (String × JVal)

/-- The diagnostic evaluator's variable context (`context`). -/
abbrev Ctx := List (String × JVal)

/-- Property read on a JS object: the value at the first matching key, or
`none` when absent (the JS `undefined`). -/
def lookupField : List (String × JVal) → String → Option JVal
  | [], _ => none
  | (k, v) :: rest, key => if k = key then some v else lookupField rest key

/-- Property write on a JS object: update the existing key in place, else
append, preserving insertion order. -/
def setKey : List (String × JVal) → String → JVal → List (String × JVal)
  | [], key, v => [(key, v)]
  | (k, w) :: rest, key, v =>
    if k = key then (k, v) :: rest else (k, w) :: setKey rest key v

/-- JavaScript truthiness, `Boolean(v)`: everything is true except `null`,
`false`, `0` and the empty string (`NaN` and `undefined` do not arise for
the integer-valued `JVal`). -/
def truthy : JVal → Bool
  | .null => false
  | .bool b => b
  | .num n => n != 0
  | .str s => !s.data.isEmpty
  | .arr _ => true
  | .obj _ => true

/-- Uppercase per `String.prototype.toUpperCase`, restricted to the simple
one-to-one case mapping (all strings exercised by the claims are ASCII). -/
def toUpperJs (s : String) : String := ⟨s.data.map Char.toUpper⟩

/-- Lowercase per `String.prototype.toLowerCase`, same restriction. -/
def toLowerJs (s : String) : String := ⟨s.data.map Char.toLower⟩

/-- JavaScript `String(v)` coercion: `null` prints `"null"`, arrays print as
`Array.prototype.toString` (elements joined with commas, nulls eliding to the
empty string), plain objects print `"[object Object]"`. -/
def jsToString : JVal → String
  | .null => "null"
  | .bool b => cond b "true" "false"
  | .num n => toString n
  | .str s => s
  | .obj _ => "[object Object]"
  | .arr xs => joinArr xs
where
  /-- `Array.prototype.join(',')`: a `null` element contributes nothing. -/
  joinArr : List JVal → String
  | [] => ""
  | [.null] => ""
  | [x] => jsToString x
  | .null :: rest => "," ++ joinArr rest
  | x :: rest => jsToString x ++ "," ++ joinArr rest

/-- Decimal integer parse backing the string arm of `jsToInt`. -/
def parseDigits : List Char → Option Nat
  | [] => none
  | [c] => if c.isDigit then some (c.toNat - 48) else none
  | c :: rest =>
    if c.isDigit then
      match parseDigits rest with
      | some n => some ((c.toNat - 48) * 10 ^ rest.length + n)
      | none => none
    else none

/-- JavaScript `ToIntegerOrInfinity` as used by `substring` indices,
restricted to the shapes that can reach it in this code base (integer-valued
model; a non-numeric string coerces to 0, as does every composite — no
claim exercises fractional or exotic index coercions). -/
def jsToInt : JVal → Int
  | .num n => n
  | .bool b => cond b 1 0
  | .null => 0
  | .str s =>
    (match s.data with
     | '-' :: rest => (parseDigits rest).map (fun n => -(Int.ofNat n))
     | ds => (parseDigits ds).map Int.ofNat).getD 0
  | .arr _ => 0
  | .obj _ => 0

/-- `String.prototype.substring`: indices clamped into `[0, length]` and
swapped when `start > end`; a missing `end` means the string's end. -/
def jsSubstring (s : String) (start : Int) (endO : Option Int) : String :=
  let len : Int := Int.ofNat s.data.length
  let clamp : Int → Nat := fun i => (max 0 (min i len)).toNat
  let a : Nat := clamp start
  let b : Nat := match endO with
    | none => s.data.length
    | some e => clamp e
  ⟨((s.data.drop (min a b)).take (max a b - min a b))⟩

/-- JavaScript strict equality `===` on evaluator results.  Primitives
compare by type and content.  Arrays and objects compare by reference; every
composite operand the claims route into `equals` is freshly constructed by
the evaluator (array literals are rebuilt element-wise), so their reference
comparison is `false`.  Aliasing two composite results of the same
environment slot, the one way `===` could see `true` on composites, is not
exercised by any claim. -/
def jsStrictEq : JVal → JVal → Bool
  | .null, .null => true
  | .bool a, .bool b => a == b
  | .num a, .num b => a == b
  | .str a, .str b => a == b
  | _, _ => false

/-- A `$`-sigil variable-reference string, `expression.startsWith('$')`. -/
def startsWithDollar (s : String) : Bool :=
  match s.data with
  | c :: _ => c = '$'
  | [] => false

/-- The variable name behind the sigil, `expression.substring(1)`. -/
def dropSigil (s : String) : String := ⟨s.data.drop 1⟩

/-! ## The strict evaluator (`FrankaInterpreter`)

A result pairs the `Except` outcome with the environment as left behind:
a thrown JS `Error` unwinds past `executeLet` without running its restore
code, so the mutated `this.variables` object survives the throw.  Every
`execute*` helper below is the image of the same-named private method,
abstracted over `ev`, the recursive `this.evaluate` at the remaining fuel. -/

/-- Outcome of one strict-evaluator call: the value or the thrown error
message, together with the environment state on exit. -/
abbrev EvalRes := Except String JVal × Env

/-- Element-wise `expression.map((item) => this.evaluate(item))`: sequential,
aborting at the first thrown error. -/
def evalElems (ev : JVal → Env → EvalRes) : List JVal → Env → Except String (List JVal) × Env
  | [], env => (.ok [], env)
  | x :: xs, env =>
    match ev x env with
    | (.ok v, env1) =>
      match evalElems ev xs env1 with
      | (.ok vs, env2) => (.ok (v :: vs), env2)
      | (.error msg, env2) => (.error msg, env2)
    | (.error msg, env1) => (.error msg, env1)

/-- The binding loop of `executeLet`: every entry except the reserved key
`in` is evaluated in the environment as mutated so far and written into it,
sequentially in insertion order. -/
def bindLoop (ev : JVal → Env → EvalRes) : List (String × JVal) → Env → Except String Unit × Env
  | [], env => (.ok (), env)
  | (k, v) :: rest, env =>
    if k = "in" then bindLoop ev rest env
    else
      match ev v env with
      | (.ok value, env1) => bindLoop ev rest (setKey env1 k value)
      | (.error msg, env1) => (.error msg, env1)

/-- The message of `executeLet`'s second guard. -/
def errNoIn : String := "let operation requires an \"in\" expression"

/-- `executeLet`: saves the scope, requires a truthy `in` entry (the source
tests `!inExpression`, so a `null`, `false`, `0` or `""` binding for `in` is
also rejected), installs the bindings sequentially, evaluates `in`, and
restores the saved scope — but only on the success path: a thrown error
propagates with the environment as already mutated, since the source has no
`try`/`finally` around the restore. -/
def executeLet (ev : JVal → Env → EvalRes) (args : JVal) (env : Env) : EvalRes :=
  match args with
  | .obj fields =>
    let saved := env
    match lookupField fields "in" with
    | none => (.error errNoIn, env)
    | some inExpr =>
      if truthy inExpr then
        match bindLoop ev fields env with
        | (.ok _, env1) =>
          match ev inExpr env1 with
          | (.ok result, _) => (.ok result, saved)
          | (.error msg, env2) => (.error msg, env2)
        | (.error msg, env1) => (.error msg, env1)
      else (.error errNoIn, env)
  | .arr _ => (.error errNoIn, env)
  | _ => (.error "let operation requires bindings and an \"in\" expression", env)

/-- `extractValue`: a non-array object carrying a `value` key is unwrapped
before evaluation; anything else is evaluated directly. -/
def extractValue (ev : JVal → Env → EvalRes) (args : JVal) (env : Env) : EvalRes :=
  match args with
  | .obj fields =>
    match lookupField fields "value" with
    | some v => ev v env
    | none => ev args env
  | _ => ev args env

/-- Shared payload normalization of `concat`/`and`/`or`: a direct array, or
an object with a `values` key.  A `values` entry that is not an array slips
past the guard and crashes `values.map` — a raised `TypeError`, not a
handled shape error. -/
def valuesPayload : JVal → Except String (List JVal)
  | .arr values => .ok values
  | .obj fields =>
    match lookupField fields "values" with
    | some (.arr values) => .ok values
    | some _ => .error "TypeError: values.map is not a function"
    | none => .error "payload"
  | _ => .error "payload"

/-- `executeConcat`: evaluate every element, then `join('')` them — the join
stringifies each result, a `null` result contributing nothing. -/
def executeConcat (ev : JVal → Env → EvalRes) (args : JVal) (env : Env) : EvalRes :=
  match valuesPayload args with
  | .error "payload" =>
    (.error "concat operation requires an array or an object with \"values\" property", env)
  | .error msg => (.error msg, env)
  | .ok values =>
    match evalElems ev values env with
    | (.ok vs, env1) =>
      (.ok (.str (joinEmpty vs)), env1)
    | (.error msg, env1) => (.error msg, env1)
where
  /-- `join('')` over evaluated results: `null` elides, all else stringifies. -/
  joinEmpty : List JVal → String
  | [] => ""
  | .null :: rest => joinEmpty rest
  | v :: rest => jsToString v ++ joinEmpty rest

/-- `executeUppercase`: `String(value).toUpperCase()`. -/
def executeUppercase (ev : JVal → Env → EvalRes) (args : JVal) (env : Env) : EvalRes :=
  match extractValue ev args env with
  | (.ok v, env1) => (.ok (.str (toUpperJs (jsToString v))), env1)
  | (.error msg, env1) => (.error msg, env1)

/-- `executeLowercase`: `String(value).toLowerCase()`. -/
def executeLowercase (ev : JVal → Env → EvalRes) (args : JVal) (env : Env) : EvalRes :=
  match extractValue ev args env with
  | (.ok v, env1) => (.ok (.str (toLowerJs (jsToString v))), env1)
  | (.error msg, env1) => (.error msg, env1)

/-- `executeLength`: `String(value).length` as a number. -/
def executeLength (ev : JVal → Env → EvalRes) (args : JVal) (env : Env) : EvalRes :=
  match extractValue ev args env with
  | (.ok v, env1) => (.ok (.num (Int.ofNat (jsToString v).data.length)), env1)
  | (.error msg, env1) => (.error msg, env1)

/-- `executeSubstring`: requires an object with `value` and `start`;
evaluates `value`, `start`, then `end` if present, and slices the string
coercion with clamped, order-normalized indices. -/
def executeSubstring (ev : JVal → Env → EvalRes) (args : JVal) (env : Env) : EvalRes :=
  match args with
  | .obj fields =>
    match lookupField fields "value", lookupField fields "start" with
    | some valueE, some startE =>
      (match ev valueE env with
       | (.ok v, env1) =>
         (match ev startE env1 with
          | (.ok s, env2) =>
            (match lookupField fields "end" with
             | some endE =>
               (match ev endE env2 with
                | (.ok e, env3) =>
                  (.ok (.str (jsSubstring (jsToString v) (jsToInt s) (some (jsToInt e)))), env3)
                | (.error msg, env3) => (.error msg, env3))
             | none =>
               (.ok (.str (jsSubstring (jsToString v) (jsToInt s) none)), env2))
          | (.error msg, env2) => (.error msg, env2))
       | (.error msg, env1) => (.error msg, env1))
    | _, _ => (.error "substring operation requires \"value\" and \"start\" properties", env)
  | _ => (.error "substring operation requires \"value\" and \"start\" properties", env)

/-- `executeAnd`: evaluates every element (no short circuit), then folds
`every(Boolean)`. -/
def executeAnd (ev : JVal → Env → EvalRes) (args : JVal) (env : Env) : EvalRes :=
  match valuesPayload args with
  | .error "payload" =>
    (.error "and operation requires an array or an object with \"values\" property", env)
  | .error msg => (.error msg, env)
  | .ok values =>
    match evalElems ev values env with
    | (.ok vs, env1) => (.ok (.bool (vs.all truthy)), env1)
    | (.error msg, env1) => (.error msg, env1)

/-- `executeOr`: evaluates every element (no short circuit), then folds
`some(Boolean)`. -/
def executeOr (ev : JVal → Env → EvalRes) (args : JVal) (env : Env) : EvalRes :=
  match valuesPayload args with
  | .error "payload" =>
    (.error "or operation requires an array or an object with \"values\" property", env)
  | .error msg => (.error msg, env)
  | .ok values =>
    match evalElems ev values env with
    | (.ok vs, env1) => (.ok (.bool (vs.any truthy)), env1)
    | (.error msg, env1) => (.error msg, env1)

/-- `executeNot`: `!Boolean(value)`. -/
def executeNot (ev : JVal → Env → EvalRes) (args : JVal) (env : Env) : EvalRes :=
  match extractValue ev args env with
  | (.ok v, env1) => (.ok (.bool (!truthy v)), env1)
  | (.error msg, env1) => (.error msg, env1)

/-- `executeEquals`: requires `left` and `right`, evaluates both in order,
compares with `===` (see `jsStrictEq`). -/
def executeEquals (ev : JVal → Env → EvalRes) (args : JVal) (env : Env) : EvalRes :=
  match args with
  | .obj fields =>
    match lookupField fields "left", lookupField fields "right" with
    | some leftE, some rightE =>
      (match ev leftE env with
       | (.ok l, env1) =>
         (match ev rightE env1 with
          | (.ok r, env2) => (.ok (.bool (jsStrictEq l r)), env2)
          | (.error msg, env2) => (.error msg, env2))
       | (.error msg, env1) => (.error msg, env1))
    | _, _ => (.error "equals operation requires \"left\" and \"right\" properties", env)
  | _ => (.error "equals operation requires \"left\" and \"right\" properties", env)

/-- `executeIf`: requires `condition`; evaluates it, coerces to boolean, and
lazily evaluates only the selected branch, defaulting to `null` when that
branch key is absent. -/
def executeIf (ev : JVal → Env → EvalRes) (args : JVal) (env : Env) : EvalRes :=
  match args with
  | .obj fields =>
    match lookupField fields "condition" with
    | some condE =>
      (match ev condE env with
       | (.ok c, env1) =>
         if truthy c then
           match lookupField fields "then" with
           | some thenE => ev thenE env1
           | none => (.ok .null, env1)
         else
           match lookupField fields "else" with
           | some elseE => ev elseE env1
           | none => (.ok .null, env1)
       | (.error msg, env1) => (.error msg, env1))
    | none => (.error "if operation requires \"condition\" property", env)
  | _ => (.error "if operation requires \"condition\" property", env)

/-- The strict evaluator, `FrankaInterpreter.evaluate`, with fuel standing in
for the JavaScript call stack: fuel 0 is the stack-overflow `RangeError`,
which nothing in this evaluator catches.  Dispatch for a non-empty mapping
reads only the first enumerated key and its payload. -/
def evaluate : Nat → JVal → Env → EvalRes
  | 0, _, env => (.error "Maximum call stack size exceeded", env)
  | fuel + 1, e, env =>
    match e with
    | .null => (.ok .null, env)
    | .bool b => (.ok (.bool b), env)
    | .num n => (.ok (.num n), env)
    | .str s =>
      if startsWithDollar s then
        let varName := dropSigil s
        match lookupField env varName with
        | some v => (.ok v, env)
        | none => (.error ( "Undefined variable: " ++ varName), env)
      else (.ok (.str s), env)
    | .arr items =>
      (match evalElems (evaluate fuel) items env with
       | (.ok vs, env1) => (.ok (.arr vs), env1)
       | (.error msg, env1) => (.error msg, env1))
    | .obj [] => (.ok (.obj []), env)
    | .obj ((operationName, operationArgs) :: _) =>
      match operationName with
      | "let" => executeLet (evaluate fuel) operationArgs env
      | "concat" => executeConcat (evaluate fuel) operationArgs env
      | "uppercase" => executeUppercase (evaluate fuel) operationArgs env
      | "lowercase" => executeLowercase (evaluate fuel) operationArgs env
      | "length" => executeLength (evaluate fuel) operationArgs env
      | "substring" => executeSubstring (evaluate fuel) operationArgs env
      | "and" => executeAnd (evaluate fuel) operationArgs env
      | "or" => executeOr (evaluate fuel) operationArgs env
      | "not" => executeNot (evaluate fuel) operationArgs env
      | "equals" => executeEquals (evaluate fuel) operationArgs env
      | "if" => executeIf (evaluate fuel) operationArgs env
      | _ => (.error ( "Unknown operation: " ++ operationName), env)

/-! ## The diagnostic evaluator (`treeUtils.ts`)

The coverage-bearing variant of `tryEvaluate` (the second revision of the
file, the one every claim cites).  The `CoverageTracker` is its insertion-
ordered set of path strings; the tracker argument is threaded as explicit
state.  The source makes the tracker optional purely so the same function
can run without coverage; every call site the claims concern passes one, so
the embedding keeps it mandatory.  Failures are `Except.error ()`: the only
JavaScript exceptions reachable in this function are the stack-overflow
`RangeError` of a call that cannot even be entered (fuel 0 here) and the
`TypeError`s of `Object.entries(null)` and `'left' in null`; each is caught
by the nearest enclosing call's `try`/`catch` and becomes the `<error>`
placeholder. -/

/-- The coverage set: path identifiers in first-insertion order. -/
abbrev Coverage := List String

/-- `CoverageTracker.markCovered`: set insertion. -/
def markCovered (tr : Coverage) (p : String) : Coverage :=
  if p ∈ tr then tr else tr ++ [p]

/-- `CoverageTracker.isCovered`: set membership. -/
def isCovered (tr : Coverage) (p : String) : Bool := p ∈ tr

/-- Boolean code-unit comparison backing the default `Array.prototype.sort`
comparator on the (ASCII) key strings. -/
def charListLt : List Char → List Char → Bool
  | _, [] => false
  | [], _ :: _ => true
  | a :: as, b :: bs => if a < b then true else if b < a then false else charListLt as bs

/-- Insert into a sorted list of keys. -/
def insertSorted (x : String) : List String → List String
  | [] => [x]
  | y :: ys => if charListLt x.data y.data then x :: y :: ys else y :: insertSorted x ys

/-- `Object.keys(expr).sort()` on unique keys: ascending code-unit order. -/
def sortStrings : List String → List String
  | [] => []
  | x :: xs => insertSorted x (sortStrings xs)

/-- Comma-join of the sorted key list, `keys.join(',')`. -/
def joinKeys : List String → String
  | [] => ""
  | [k] => k
  | k :: rest => k ++ "," ++ joinKeys rest

/-- The structural signature half of `generatePathId`: the JSON encoding of
a scalar (modulo JSON string escaping, which no claim's scalar needs), the
length for an array, the sorted key set for a mapping.  The node's evaluated
result never enters. -/
def pathSig : JVal → String
  | .null => "null"
  | .bool b => cond b "true" "false"
  | .num n => toString n
  | .str s => "\"" ++ s ++ "\""
  | .arr xs => "array[" ++ toString xs.length ++ "]"
  | .obj fields => "\x7b" ++ joinKeys (sortStrings (fields.map (fun f => f.1))) ++ "\x7d"

/-- `generatePathId`: traversal route plus structural signature. -/
def generatePathId (expr : JVal) (pre : String) : String :=
  pre ++ ":" ++ pathSig expr

/-- Outcome of one diagnostic call: an escaped exception or the value,
with the tracker as mutated so far (marks survive a catch). -/
abbrev TryRes := Except Unit JVal × Coverage

/-- The `expr.map((item, idx) => tryEvaluate(...))` loops: `mkPath` builds
each element's route (`pre[idx]` for arrays, `pre.concat[idx]` for concat
arguments); an escaping exception aborts the map. -/
def tryElems (ev : JVal → Ctx → Coverage → String → TryRes) (mkPath : Nat → String) :
    List JVal → Ctx → Coverage → Nat → Except Unit (List JVal) × Coverage
  | [], _, tr, _ => (.ok [], tr)
  | x :: xs, ctx, tr, i =>
    match ev x ctx tr (mkPath i) with
    | (.ok v, tr1) =>
      (match tryElems ev mkPath xs ctx tr1 (i + 1) with
       | (.ok vs, tr2) => (.ok (v :: vs), tr2)
       | (.error u, tr2) => (.error u, tr2))
    | (.error u, tr1) => (.error u, tr1)

/-- The binding loop of the diagnostic `let/in` handler: every binding's
value is evaluated in the ORIGINAL outer context (`tryEvaluate` passes
`context`, not the accumulated `newContext`), then written into the
accumulating copy. -/
def tryLetBindings (ev : JVal → Ctx → Coverage → String → TryRes) :
    List (String × JVal) → Ctx → Ctx → Coverage → String → Except Unit Ctx × Coverage
  | [], _, acc, tr, _ => (.ok acc, tr)
  | (bindName, bindValue) :: more, orig, acc, tr, pathPre =>
    match ev bindValue orig tr (pathPre ++ ".let." ++ bindName) with
    | (.ok v, tr1) => tryLetBindings ev more orig (setKey acc bindName v) tr1 pathPre
    | (.error u, tr1) => (.error u, tr1)

/-- Does a non-null object carry both `left` and `right` keys?  Mirrors the
`typeof value === 'object' && 'left' in value && 'right' in value` guard of
the `equals` handler (arrays pass the `typeof` test but carry neither key). -/
def hasLeftRight : JVal → Bool
  | .obj fields => (lookupField fields "left").isSome && (lookupField fields "right").isSome
  | _ => false

/-- `typeof value === 'string'` shape test. -/
def isStrJ : JVal → Bool
  | .str _ => true
  | _ => false

/-- `Array.isArray(value)` shape test. -/
def isArrJ : JVal → Bool
  | .arr _ => true
  | _ => false

/-- `value === null` shape test. -/
def isNullJ : JVal → Bool
  | .null => true
  | _ => false

/-- A non-null, non-array object: `typeof v === 'object' && v !== null &&
!Array.isArray(v)`. -/
def isObjJ : JVal → Bool
  | .obj _ => true
  | _ => false

/-- Guarded projection: the fields of a value already known (by the guard
preceding each use) to be an object. -/
def objFields : JVal → List (String × JVal)
  | .obj fs => fs
  | _ => []

/-- Guarded projection: the elements of a value already known to be an
array. -/
def arrItems : JVal → List JVal
  | .arr xs => xs
  | _ => []

/-- Guarded projection: the characters of a value already known to be a
string. -/
def strVal : JVal → String
  | .str s => s
  | _ => ""

/-- The handler cascade of `tryEvaluate` for a non-empty mapping, in source
order; `ev` is the recursive call at the remaining fuel. -/
def tryObjBody (ev : JVal → Ctx → Coverage → String → TryRes)
    (key : String) (value : JVal) (rest : List (String × JVal))
    (context : Ctx) (tr : Coverage) (pathPre : String) : TryRes :=
  -- get: only when the payload is a literal string name
  if key = "get" ∧ isStrJ value then
    match lookupField context (strVal value) with
    | some v => (.ok v, tr)
    | none => (.ok (.str ( "<" ++ strVal value ++ ">")), tr)
  -- concat: only when the payload is an array
  else if key = "concat" ∧ isArrJ value then
    match tryElems ev (fun i => pathPre ++ ".concat[" ++ toString i ++ "]")
        (arrItems value) context tr 0 with
    | (.ok parts, tr1) => (.ok (.str (joinParts parts)), tr1)
    | (.error u, tr1) => (.error u, tr1)
  else if key = "uppercase" then
    match ev value context tr (pathPre ++ ".uppercase") with
    | (.ok (.str s), tr1) => (.ok (.str (toUpperJs s)), tr1)
    | (.ok .null, tr1) => (.ok .null, tr1)
    | (.ok (.bool b), tr1) => (.ok (.bool b), tr1)
    | (.ok (.num n), tr1) => (.ok (.num n), tr1)
    | (.ok (.arr xs), tr1) => (.ok (.arr xs), tr1)
    | (.ok (.obj fs), tr1) => (.ok (.obj fs), tr1)
    | (.error u, tr1) => (.error u, tr1)
  else if key = "lowercase" then
    match ev value context tr (pathPre ++ ".lowercase") with
    | (.ok (.str s), tr1) => (.ok (.str (toLowerJs s)), tr1)
    | (.ok .null, tr1) => (.ok .null, tr1)
    | (.ok (.bool b), tr1) => (.ok (.bool b), tr1)
    | (.ok (.num n), tr1) => (.ok (.num n), tr1)
    | (.ok (.arr xs), tr1) => (.ok (.arr xs), tr1)
    | (.ok (.obj fs), tr1) => (.ok (.obj fs), tr1)
    | (.error u, tr1) => (.error u, tr1)
  -- flat if/then/else: sibling keys, any position
  else if (((key, value) :: rest).map (fun f => f.1)).contains "if" ∧ ((((key, value) :: rest).map (fun f => f.1)).contains "then" ∨ (((key, value) :: rest).map (fun f => f.1)).contains "else") then
    match ev ((lookupField ((key, value) :: rest) "if").getD .null) context tr (pathPre ++ ".if") with
    | (.ok condV, tr1) =>
      if truthy condV then
        match lookupField ((key, value) :: rest) "then" with
        | some thenE => ev thenE context tr1 (pathPre ++ ".then")
        | none => (.ok .null, tr1)
      else
        match lookupField ((key, value) :: rest) "else" with
        | some elseE => ev elseE context tr1 (pathPre ++ ".else")
        | none => (.ok .null, tr1)
    | (.error u, tr1) => (.error u, tr1)
  -- equals: `'left' in null` raises TypeError, caught by the wrapper
  else if key = "equals" ∧ isNullJ value then (.error (), tr)
  else if key = "equals" ∧ hasLeftRight value then
    match ev ((lookupField (objFields value) "left").getD .null) context tr
        (pathPre ++ ".equals.left") with
    | (.ok l, tr1) =>
      (match ev ((lookupField (objFields value) "right").getD .null) context tr1
          (pathPre ++ ".equals.right") with
       | (.ok r, tr2) => (.ok (.bool (jsStrictEq l r)), tr2)
       | (.error u, tr2) => (.error u, tr2))
    | (.error u, tr1) => (.error u, tr1)
  -- flat let/in: sibling keys, any position
  else if (((key, value) :: rest).map (fun f => f.1)).contains "let" ∧ (((key, value) :: rest).map (fun f => f.1)).contains "in" then
    match (lookupField ((key, value) :: rest) "let").getD .null with
    | .null => (.error (), tr)  -- Object.entries(null) raises TypeError
    | .obj bindings =>
      (match tryLetBindings ev bindings context context tr pathPre with
       | (.ok newContext, tr1) =>
         ev ((lookupField ((key, value) :: rest) "in").getD .null) newContext tr1 (pathPre ++ ".in")
       | (.error u, tr1) => (.error u, tr1))
    | .bool _ => ev ((lookupField ((key, value) :: rest) "in").getD .null) context tr (pathPre ++ ".in")
    | .num _ => ev ((lookupField ((key, value) :: rest) "in").getD .null) context tr (pathPre ++ ".in")
    | .str _ => ev ((lookupField ((key, value) :: rest) "in").getD .null) context tr (pathPre ++ ".in")
    | .arr _ => ev ((lookupField ((key, value) :: rest) "in").getD .null) context tr (pathPre ++ ".in")
  else (.ok (.str ( "<" ++ key ++ ">")), tr)
where
  /-- `parts.map(p => typeof p === 'string' ? p : String(p)).join('')`. -/
  joinParts : List JVal → String
  | [] => ""
  | .str s :: more => s ++ joinParts more
  | v :: more => jsToString v ++ joinParts more

/-- The body of `tryEvaluate` between its `try` and `catch`: the source's
cascade of handler guards in source order.  `ev` is the recursive call at
the remaining fuel.  An `Except.error` is an exception escaping the body,
to be caught by the wrapper. -/
def tryEvaluateBody (ev : JVal → Ctx → Coverage → String → TryRes)
    (expr : JVal) (context : Ctx) (tr : Coverage) (pathPre : String) : TryRes :=
  match expr with
  | .null => (.ok .null, tr)
  | .bool b => (.ok (.bool b), tr)
  | .num n => (.ok (.num n), tr)
  | .str s => (.ok (.str s), tr)
  | .arr items =>
    (match tryElems ev (fun i => pathPre ++ "[" ++ toString i ++ "]") items context tr 0 with
     | (.ok vs, tr1) => (.ok (.arr vs), tr1)
     | (.error u, tr1) => (.error u, tr1))
  | .obj [] => (.ok .null, tr)
  | .obj ((key, value) :: rest) => tryObjBody ev key value rest context tr pathPre

/-- The diagnostic evaluator `tryEvaluate`: marks the node's path identifier
before the `try`, runs the body, and converts any escaped exception into the
`<error>` placeholder at this node's boundary.  Fuel 0 is a call that cannot
be entered at all (platform stack overflow): the one failure that escapes to
the caller, where the next enclosing call's `catch` absorbs it. -/
def tryEvaluate : Nat → JVal → Ctx → Coverage → String → TryRes
  | 0, _, _, tr, _ => (.error (), tr)
  | fuel + 1, expr, context, tr0, pathPre =>
    let tr1 := markCovered tr0 (generatePathId expr pathPre)
    match tryEvaluateBody (tryEvaluate fuel) expr context tr1 pathPre with
    | (.ok v, tr2) => (.ok v, tr2)
    | (.error _, tr2) => (.ok (.str "<error>"), tr2)

/-! ## The display-tree builder (`buildLogicTree`)

The coverage-bearing revision.  It computes the node's `covered` flag from
the tracker as handed to it at entry, then — for many node shapes — runs
`tryEvaluate` against the same tracker to render a display value, mutating
the tracker before the children are built.  `children` is a plain list
(absent in the source becomes `[]`; the presence/absence distinction feeds
only the rendering layer).  `covered` is `Bool` because the tracker is kept
mandatory, as at every call site the claims concern. -/

/-- `inferType`. -/
def inferType : JVal → String
  | .null => "null"
  | .str _ => "string"
  | .num _ => "number"
  | .bool _ => "boolean"
  | .arr _ => "array"
  | .obj _ => "operation"

/-- `formatDisplayValue`. -/
def formatDisplayValue : JVal → String
  | .null => "null"
  | .str s => "\"" ++ s ++ "\""
  | .bool b => cond b "true" "false"
  | .num n => toString n
  | .arr xs => "[" ++ toString xs.length ++ " items]"
  | .obj _ => "\x7b...\x7d"

/-- One display node's data row. -/
structure TreeNodeData where
  label : String
  type : String
  value : String
  raw : JVal
  covered : Bool
deriving Repr, Inhabited

/-- A display node: data plus child nodes. -/
inductive TreeNode where
  | mk (data : TreeNodeData) (children : List TreeNode)
deriving Repr, Inhabited

/-- The data row of a display node. -/
def TreeNode.data : TreeNode → TreeNodeData
  | .mk d _ => d

/-- The children of a display node. -/
def TreeNode.children : TreeNode → List TreeNode
  | .mk _ cs => cs

/-- The `bindingNode.data.value = ...` / `inNode.data.value = ...` mutation. -/
def TreeNode.withValue : TreeNode → String → TreeNode
  | .mk d cs, v => .mk { d with value := v } cs

/-- A JavaScript `label || fallback` on strings: empty is falsy. -/
def labelOr (label fallback : String) : String :=
  if label.data.isEmpty then fallback else label

/-- Outcome of one builder call: an escaped exception or the node, with the
tracker as mutated by the display-value evaluations run along the way. -/
abbrev BuildRes := Except Unit TreeNode × Coverage

/-- Child loop for array nodes: label `[index]`, route `pre[index]`. -/
def buildElems (bld : JVal → Ctx → String → Coverage → String → BuildRes) :
    List JVal → Ctx → Coverage → String → Nat → Except Unit (List TreeNode) × Coverage
  | [], _, tr, _, _ => (.ok [], tr)
  | x :: xs, ctx, tr, pathPre, i =>
    match bld x ctx ( "[" ++ toString i ++ "]") tr (pathPre ++ "[" ++ toString i ++ "]") with
    | (.ok node, tr1) =>
      (match buildElems bld xs ctx tr1 pathPre (i + 1) with
       | (.ok nodes, tr2) => (.ok (node :: nodes), tr2)
       | (.error u, tr2) => (.error u, tr2))
    | (.error u, tr1) => (.error u, tr1)

/-- Child loop for `concat` nodes: label `item index`, route
`pre.concat[index]`. -/
def buildConcatItems (bld : JVal → Ctx → String → Coverage → String → BuildRes) :
    List JVal → Ctx → Coverage → String → Nat → Except Unit (List TreeNode) × Coverage
  | [], _, tr, _, _ => (.ok [], tr)
  | x :: xs, ctx, tr, pathPre, i =>
    match bld x ctx ( "item " ++ toString i) tr (pathPre ++ ".concat[" ++ toString i ++ "]") with
    | (.ok node, tr1) =>
      (match buildConcatItems bld xs ctx tr1 pathPre (i + 1) with
       | (.ok nodes, tr2) => (.ok (node :: nodes), tr2)
       | (.error u, tr2) => (.error u, tr2))
    | (.error u, tr1) => (.error u, tr1)

/-- Child loop for generic objects: label is the key, route `pre.key`. -/
def buildGenericChildren (bld : JVal → Ctx → String → Coverage → String → BuildRes) :
    List (String × JVal) → Ctx → Coverage → String → Except Unit (List TreeNode) × Coverage
  | [], _, tr, _ => (.ok [], tr)
  | (k, v) :: fs, ctx, tr, pathPre =>
    match bld v ctx k tr (pathPre ++ "." ++ k) with
    | (.ok node, tr1) =>
      (match buildGenericChildren bld fs ctx tr1 pathPre with
       | (.ok nodes, tr2) => (.ok (node :: nodes), tr2)
       | (.error u, tr2) => (.error u, tr2))
    | (.error u, tr1) => (.error u, tr1)

/-- Binding children of the single-key `let` handler: each binding value is
evaluated in the OUTER context and its node built in a one-step extension of
that outer context (not accumulated across bindings). -/
def buildNestedBindings (evT : JVal → Ctx → Coverage → String → TryRes)
    (bld : JVal → Ctx → String → Coverage → String → BuildRes) :
    List (String × JVal) → Ctx → Coverage → String → Except Unit (List TreeNode) × Coverage
  | [], _, tr, _ => (.ok [], tr)
  | (bindName, bindValue) :: more, context, tr, pathPre =>
    match evT bindValue context tr (pathPre ++ ".let." ++ bindName) with
    | (.ok evaluated, tr1) =>
      (match bld bindValue (setKey context bindName evaluated) bindName tr1
          (pathPre ++ ".let." ++ bindName) with
       | (.ok node, tr2) =>
         (match buildNestedBindings evT bld more context tr2 pathPre with
          | (.ok nodes, tr3) => (.ok (node :: nodes), tr3)
          | (.error u, tr3) => (.error u, tr3))
       | (.error u, tr2) => (.error u, tr2))
    | (.error u, tr1) => (.error u, tr1)

/-- Binding children of the flat `let/in` handler: the context accumulates
across bindings, and each binding node's displayed value is overwritten with
its freshly evaluated result. -/
def buildFlatBindings (evT : JVal → Ctx → Coverage → String → TryRes)
    (bld : JVal → Ctx → String → Coverage → String → BuildRes) :
    List (String × JVal) → Ctx → Coverage → String →
      Except Unit (List TreeNode × Ctx) × Coverage
  | [], acc, tr, _ => (.ok ([], acc), tr)
  | (bindName, bindValue) :: more, acc, tr, pathPre =>
    match evT bindValue acc tr (pathPre ++ ".let." ++ bindName) with
    | (.ok evaluated, tr1) =>
      let acc1 := setKey acc bindName evaluated
      (match bld bindValue acc1 bindName tr1 (pathPre ++ ".let." ++ bindName) with
       | (.ok node, tr2) =>
         (match buildFlatBindings evT bld more acc1 tr2 pathPre with
          | (.ok (nodes, acc2), tr3) =>
            (.ok ((node.withValue (formatDisplayValue evaluated)) :: nodes, acc2), tr3)
          | (.error u, tr3) => (.error u, tr3))
       | (.error u, tr2) => (.error u, tr2))
    | (.error u, tr1) => (.error u, tr1)

/-- First key that is neither `left` nor `right`:
`keys.find(k => k !== 'left' && k !== 'right')`. -/
def findOpKey : List String → Option String
  | [] => none
  | k :: ks => if k ≠ "left" ∧ k ≠ "right" then some k else findOpKey ks

/-- The mapping case of `buildLogicTree`, the handler cascade producing the
node's row (label, type tag, display value) and children; `evT` and `bld`
are the diagnostic evaluator and the recursive builder at the remaining
fuel. -/
def buildObjCore (evT : JVal → Ctx → Coverage → String → TryRes)
    (bld : JVal → Ctx → String → Coverage → String → BuildRes)
    (key : String) (value : JVal) (rest : List (String × JVal)) (context : Ctx)
    (label : String) (tr : Coverage) (pathPre : String) :
    Except Unit ((String × String × String) × List TreeNode) × Coverage :=
  -- single-key special handlers
  if rest.isEmpty ∧ key = "get" then
    match lookupField context (jsToString value) with
    | some contextValue =>
      (.ok (("get " ++ jsToString value, inferType contextValue, formatDisplayValue contextValue), []), tr)
    | none =>
      (.ok (("get " ++ jsToString value, "null", "<" ++ jsToString value ++ ">"), []), tr)
  else if rest.isEmpty ∧ key = "let" ∧ isNullJ value then
    (.error (), tr)  -- Object.entries(null) raises TypeError, uncaught here
  else if rest.isEmpty ∧ key = "let" ∧ isObjJ value then
    match buildNestedBindings (evT) (bld)
        (objFields value) context tr pathPre with
    | (.ok childNodes, tr1) =>
      (.ok (("let", "let-binding", toString (objFields value).length ++ " bindings"), childNodes), tr1)
    | (.error u, tr1) => (.error u, tr1)
  else if rest.isEmpty ∧ key = "in" then
    match evT value context tr (pathPre ++ ".in") with
    | (.ok v, tr1) =>
      (match bld value context "result" tr1 (pathPre ++ ".in") with
       | (.ok child, tr2) =>
         (.ok (("in", "expression", formatDisplayValue v), [child]), tr2)
       | (.error u, tr2) => (.error u, tr2))
    | (.error u, tr1) => (.error u, tr1)
  else if rest.isEmpty ∧ key = "if" then
    match evT value context tr (pathPre ++ ".if") with
    | (.ok v, tr1) =>
      (match bld value context "condition" tr1 (pathPre ++ ".if") with
       | (.ok child, tr2) =>
         (.ok (("if", "conditional", formatDisplayValue v), [child]), tr2)
       | (.error u, tr2) => (.error u, tr2))
    | (.error u, tr1) => (.error u, tr1)
  else if rest.isEmpty ∧ key = "then" then
    match evT value context tr (pathPre ++ ".then") with
    | (.ok v, tr1) =>
      (match bld value context "result" tr1 (pathPre ++ ".then") with
       | (.ok child, tr2) =>
         (.ok (("then", "expression", formatDisplayValue v), [child]), tr2)
       | (.error u, tr2) => (.error u, tr2))
    | (.error u, tr1) => (.error u, tr1)
  else if rest.isEmpty ∧ key = "else" then
    match evT value context tr (pathPre ++ ".else") with
    | (.ok v, tr1) =>
      (match bld value context "result" tr1 (pathPre ++ ".else") with
       | (.ok child, tr2) =>
         (.ok (("else", "expression", formatDisplayValue v), [child]), tr2)
       | (.error u, tr2) => (.error u, tr2))
    | (.error u, tr1) => (.error u, tr1)
  else if rest.isEmpty ∧ (key = "uppercase" ∨ key = "lowercase" ∨ key = "not" ∨ key = "length") then
    match evT (.obj ((key, value) :: rest)) context tr pathPre with
    | (.ok v, tr1) =>
      (match bld value context "argument" tr1 (pathPre ++ "." ++ key) with
       | (.ok child, tr2) =>
         (.ok ((key, "operation", formatDisplayValue v), [child]), tr2)
       | (.error u, tr2) => (.error u, tr2))
    | (.error u, tr1) => (.error u, tr1)
  else if rest.isEmpty ∧ key = "concat" ∧ isArrJ value then
    match evT (.obj ((key, value) :: rest)) context tr pathPre with
    | (.ok v, tr1) =>
      (match buildConcatItems (bld) (arrItems value) context tr1 pathPre 0 with
       | (.ok childNodes, tr2) =>
         (.ok (("concat", "operation", formatDisplayValue v), childNodes), tr2)
       | (.error u, tr2) => (.error u, tr2))
    | (.error u, tr1) => (.error u, tr1)
  -- binary operations: left and right siblings plus an operation key
  else if (((key, value) :: rest).map (fun f => f.1)).contains "left" ∧ (((key, value) :: rest).map (fun f => f.1)).contains "right" ∧ (findOpKey (((key, value) :: rest).map (fun f => f.1))).isSome then
    match evT (.obj ((key, value) :: rest)) context tr pathPre with
    | (.ok v, tr1) =>
      (match bld ((lookupField ((key, value) :: rest) "left").getD .null) context
          "left" tr1 (pathPre ++ ".left") with
       | (.ok leftNode, tr2) =>
         (match bld ((lookupField ((key, value) :: rest) "right").getD .null) context
             "right" tr2 (pathPre ++ ".right") with
          | (.ok rightNode, tr3) =>
            (.ok (((findOpKey (((key, value) :: rest).map (fun f => f.1))).getD "",
              "operation", formatDisplayValue v), [leftNode, rightNode]), tr3)
          | (.error u, tr3) => (.error u, tr3))
       | (.error u, tr2) => (.error u, tr2))
    | (.error u, tr1) => (.error u, tr1)
  -- flat let/in
  else if (((key, value) :: rest).map (fun f => f.1)).contains "let"
      ∧ (((key, value) :: rest).map (fun f => f.1)).contains "in" then
    match (match (lookupField ((key, value) :: rest) "let").getD .null with
           | .null => ((.error (), tr) : Except Unit (List TreeNode × Ctx) × Coverage)
           | .obj bindings => buildFlatBindings evT bld bindings context tr pathPre
           | .bool _ => (.ok ([], context), tr)
           | .num _ => (.ok ([], context), tr)
           | .str _ => (.ok ([], context), tr)
           | .arr _ => (.ok ([], context), tr)) with
    | (.ok (bindingNodes, newContext), tr1) =>
      (match evT ((lookupField ((key, value) :: rest) "in").getD .null) newContext tr1
          (pathPre ++ ".in") with
       | (.ok finalValue, tr2) =>
         (match bld ((lookupField ((key, value) :: rest) "in").getD .null) newContext
             "in" tr2 (pathPre ++ ".in") with
          | (.ok inNode, tr3) =>
            (.ok (("let/in", "let-in", formatDisplayValue finalValue),
              bindingNodes ++ [inNode.withValue (formatDisplayValue finalValue)]), tr3)
          | (.error u, tr3) => (.error u, tr3))
       | (.error u, tr2) => (.error u, tr2))
    | (.error u, tr1) => (.error u, tr1)
  -- generic object rendering
  else
    match buildGenericChildren bld ((key, value) :: rest) context tr pathPre with
    | (.ok childNodes, tr1) =>
      (.ok ((labelOr label "object", "object",
        "\x7b" ++ toString (((key, value) :: rest).map (fun f => f.1)).length ++ " keys\x7d"),
        childNodes), tr1)
    | (.error u, tr1) => (.error u, tr1)


/-- The mapping case of `buildLogicTree`: the row built by `buildObjCore`
stamped with the raw expression and the `covered` flag read from the entry
tracker. -/
def buildObjNode (evT : JVal → Ctx → Coverage → String → TryRes)
    (bld : JVal → Ctx → String → Coverage → String → BuildRes)
    (key : String) (value : JVal) (rest : List (String × JVal)) (context : Ctx)
    (label : String) (tr : Coverage) (pathPre : String) (covered : Bool)
    (raw : JVal) : BuildRes :=
  match buildObjCore evT bld key value rest context label tr pathPre with
  | (.ok ((lbl, ty, vl), children), tr1) => (.ok (.mk ⟨lbl, ty, vl, raw, covered⟩ children), tr1)
  | (.error u, tr1) => (.error u, tr1)

/-- The display-tree builder `buildLogicTree` (coverage-bearing revision).
The `covered` flag is always read from the tracker state at entry to the
node, before any of the handler's own `tryEvaluate` calls mutate it. -/
def buildLogicTree : Nat → JVal → Ctx → String → Coverage → String → BuildRes
  | 0, _, _, _, tr, _ => (.error (), tr)
  | fuel + 1, expr, context, label, tr, pathPre =>
    let covered := isCovered tr (generatePathId expr pathPre)
    match expr with
    | .null => (.ok (.mk ⟨labelOr label "null", "null", "null", expr, covered⟩ []), tr)
    | .str s =>
      (.ok (.mk ⟨labelOr label ( "\"" ++ s ++ "\""), "string", "\"" ++ s ++ "\"", expr, covered⟩ []), tr)
    | .num n =>
      (.ok (.mk ⟨labelOr label (toString n), "number", toString n, expr, covered⟩ []), tr)
    | .bool b =>
      (.ok (.mk ⟨labelOr label (cond b "true" "false"), "boolean", cond b "true" "false",
        expr, covered⟩ []), tr)
    | .arr items =>
      (match buildElems (buildLogicTree fuel) items context tr pathPre 0 with
       | (.ok children, tr1) =>
         (.ok (.mk ⟨labelOr label "array", "array",
           "[" ++ toString items.length ++ " items]", expr, covered⟩ children), tr1)
       | (.error u, tr1) => (.error u, tr1))
    | .obj [] =>
      (.ok (.mk ⟨labelOr label "\x7b\x7d", "object", "\x7b\x7d", expr, covered⟩ []), tr)
    | .obj ((key, value) :: rest) =>
      buildObjNode (tryEvaluate fuel) (buildLogicTree fuel) key value rest context label tr
        pathPre covered expr

/-! ## Auxiliary predicates for the theorems -/

/-- A literal tree: scalars that are not `$`-sigil variable references, and
arrays of literal trees.  On this common fragment the two evaluators'
dialects coincide; mappings are excluded (the strict evaluator returns an
empty mapping unchanged where the diagnostic one returns `null`, and
non-empty mappings dispatch differently in each dialect). -/
def litTree : JVal → Bool
  | .null => true
  | .bool _ => true
  | .num _ => true
  | .str s => !startsWithDollar s
  | .arr xs => litList xs
  | .obj _ => false
where
  /-- All elements literal. -/
  litList : List JVal → Bool
  | [] => true
  | x :: xs => litTree x && litList xs

/-- Node count of a value tree, a bound for the evaluation depth. -/
def sizeJ : JVal → Nat
  | .null => 1
  | .bool _ => 1
  | .num _ => 1
  | .str _ => 1
  | .arr xs => 1 + sizeList xs
  | .obj fs => 1 + sizeFields fs
where
  /-- Total size of the elements. -/
  sizeList : List JVal → Nat
  | [] => 0
  | x :: xs => sizeJ x + sizeList xs
  /-- Total size of the field values. -/
  sizeFields : List (String × JVal) → Nat
  | [] => 0
  | (_, v) :: fs => sizeJ v + sizeFields fs

/-- A primitive result: `null`, boolean, number or string — the values on
which JavaScript `===` compares content rather than references. -/
def isPrim : JVal → Bool
  | .null => true
  | .bool _ => true
  | .num _ => true
  | .str _ => true
  | .arr _ => false
  | .obj _ => false

/-! ## Helper lemmas -/

/-- On the success path `executeLet` hands back exactly the scope it saved
on entry: the restore code runs only when neither a binding nor the `in`
expression has thrown. -/
theorem executeLet_ok_env (ev : JVal → Env → EvalRes) (args : JVal) (env envOut : Env)
    (v : JVal) (h : executeLet ev args env = (.ok v, envOut)) : envOut = env := by
  unfold executeLet at h
  repeat' split at h
  all_goals simp_all

/-! ## Claim C1: `let` scope restoration -/

/-- C1 (counterexample).  The claim promises environment restoration even
when the `in` expression raises.  It fails: `executeLet` has no
`try`/`finally`, so evaluating `let {a: 1} in $missing` under the empty
environment throws `Undefined variable: missing` and leaves the binding
`a = 1` in the environment — the bindings leak outward on the failure path. -/
theorem let_failure_leaks_bindings :
    evaluate 9 (.obj [ ("let", .obj [ ("a", .num 1), ("in", .str "$missing")])]) []
      = (.error "Undefined variable: missing", [ ("a", JVal.num 1)])
    ∧ ([ ("a", JVal.num 1)] : Env) ≠ [] := by
  exact ⟨rfl, by simp⟩

/-- C1 (amended).  When a `let` expression evaluates successfully the strict
evaluator hands back exactly the environment it was entered with: bindings
introduced by the `let` never leak outward and enclosing bindings survive.
On a failure the error propagates with the environment as already mutated
(see the counterexample), since the restore code is skipped by the throw. -/
theorem let_restores_env_on_success (fuel : Nat) (args : JVal)
    (rest : List (String × JVal)) (env envOut : Env) (v : JVal)
    (h : evaluate fuel (.obj (( "let", args) :: rest)) env = (.ok v, envOut)) :
    envOut = env := by
  cases fuel with
  | zero => simp [evaluate] at h
  | succ n => exact executeLet_ok_env (evaluate n) args env envOut v h

/-- C1 (witness): a concrete successful `let` returns the entry environment
unchanged. -/
theorem let_restores_env_on_success_witness :
    (evaluate 9 (.obj [ ("let", .obj [ ("a", .num 1), ("in", .str "$a")])])
        [ ("x", JVal.num 7)]).2 = [ ("x", JVal.num 7)] :=
  let_restores_env_on_success 9 (.obj [ ("a", .num 1), ("in", .str "$a")]) []
    [ ("x", JVal.num 7)] _ (.num 1) rfl

/-! ## Claim C6: sequential `let` bindings -/

/-- C6.  Bindings install sequentially in mapping order, each evaluated in
the environment extended by the earlier bindings of the same `let`:
`let {a: 1, b: $a} in $b` is `1`; shadowing is scoped:
`let {a: 1} in (let {a: 2} in $a)` is `2`; and after an inner `let`
completes the outer binding is visible again: concatenating the inner
result with a fresh `$a` lookup yields `"21"`. -/
theorem let_sequential_binding_examples :
    evaluate 9 (.obj [ ("let", .obj [ ("a", .num 1), ("b", .str "$a"), ("in", .str "$b")])]) []
      = (.ok (.num 1), [])
    ∧ evaluate 9 (.obj [ ("let", .obj [ ("a", .num 1),
        ("in", .obj [ ("let", .obj [ ("a", .num 2), ("in", .str "$a")])])])]) []
      = (.ok (.num 2), [])
    ∧ evaluate 9 (.obj [ ("let", .obj [ ("a", .num 1),
        ("in", .obj [ ("concat", .arr [ .obj [ ("let", .obj [ ("a", .num 2), ("in", .str "$a")])],
                                        .str "$a"])])])]) []
      = (.ok (.str "21"), []) :=
  ⟨rfl, rfl, rfl⟩

/-! ## Claim C10: dispatch reads only the first key -/

/-- C10.  For a non-empty mapping the strict evaluator dispatches on the
first enumerated key and its payload alone: any keys after the first are
silently ignored, so the whole evaluation — value, raised error, and
environment effect alike — coincides with that of the single-key mapping. -/
theorem dispatch_ignores_keys_after_first (fuel : Nat) (k : String) (v : JVal)
    (rest : List (String × JVal)) (env : Env) :
    evaluate fuel (.obj ((k, v) :: rest)) env = evaluate fuel (.obj [(k, v)]) env := by
  cases fuel <;> rfl

/-! ## Claim C9: undefined variable lookup -/

/-- C9 (counterexample).  Strictly, `$missing` in the empty environment does
fail with `Undefined variable: missing`.  But the diagnostic evaluator has
no `$`-sigil rule at all: it returns the string `"$missing"` itself — a
literal echo, not a placeholder (its placeholders are the `<name>`/`<error>`
forms). -/
theorem missing_var_diagnostic_echoes_literal :
    evaluate 3 (.str "$missing") [] = (.error "Undefined variable: missing", [])
    ∧ tryEvaluate 3 (.str "$missing") [] [] "root"
        = (.ok (.str "$missing"), [ "root:\"$missing\""])
    ∧ JVal.str "$missing" ≠ JVal.str "<missing>"
    ∧ JVal.str "$missing" ≠ JVal.str "<error>" := by
  refine ⟨rfl, rfl, ?_, ?_⟩ <;> simp

/-- C9 (amended).  Strictly, `$missing` under the empty environment fails
with `Undefined variable: missing` at any stack depth.  The diagnostic
evaluator's variable form is `{get: name}`: for the missing name it
produces the placeholder `<missing>` — no crash and no propagated error —
while a bare `$`-sigil string is treated by it as a literal. -/
theorem missing_var_strict_error_and_get_placeholder :
    (∀ fuel : Nat, evaluate (fuel + 1) (.str "$missing") []
        = (.error "Undefined variable: missing", []))
    ∧ (∀ (fuel : Nat) (cov : Coverage),
        tryEvaluate (fuel + 1) (.obj [ ("get", .str "missing")]) [] cov "root"
          = (.ok (.str "<missing>"), markCovered cov "root:\x7bget\x7d"))
    ∧ (∀ (fuel : Nat) (cov : Coverage) (pre : String),
        (tryEvaluate (fuel + 1) (.str "$missing") [] cov pre).1 = .ok (.str "$missing")) :=
  ⟨fun _ => rfl, fun _ _ => rfl, fun _ _ _ => rfl⟩

/-! ## Claim C3: the diagnostic evaluator never raises -/

/-- C3.  Any call the platform can enter at all (positive fuel) returns a
value to its caller: whatever failure arises during the reduction of the
node — including a sub-call that cannot even be entered — is caught at the
node's `try`/`catch` boundary and replaced by the `<error>` placeholder, so
a coverage pass over any expression, context and tracker completes. -/
theorem tryEvaluate_never_raises (fuel : Nat) (e : JVal) (ctx : Ctx) (tr : Coverage)
    (pre : String) (h : 1 ≤ fuel) :
    ∃ v tr2, tryEvaluate fuel e ctx tr pre = (.ok v, tr2) := by
  cases fuel with
  | zero => exact absurd h (by simp)
  | succ n =>
    simp only [tryEvaluate]
    rcases hb : tryEvaluateBody (tryEvaluate n) e ctx
        (markCovered tr (generatePathId e pre)) pre with ⟨r, tr2⟩
    cases r with
    | ok v => exact ⟨v, tr2, rfl⟩
    | error u => exact ⟨.str "<error>", tr2, rfl⟩

/-- C3 (witness): a concrete instance — one unit of stack suffices for a
leaf node, and the result is an `ok` value. -/
theorem tryEvaluate_never_raises_witness :
    ∃ v tr2, tryEvaluate 1 (.obj [ ("get", .str "x")]) [] [] "root" = (.ok v, tr2) :=
  tryEvaluate_never_raises 1 (.obj [ ("get", .str "x")]) [] [] "root" (by decide)

/-! ## Claim C7: dual argument shapes -/

/-- C7 (counterexample).  The named-field equivalence fails for the
single-value operations as soon as the payload itself is an object carrying
a `value` key: `extractValue` unwraps the payload's own `value` field in the
direct form, while the named form evaluates the payload as an expression —
here `{value: "hi"}` dispatches on the unknown operation `value`.  With
`x = {value: "hi"}`, `uppercase(x)` succeeds with `"HI"` while
`uppercase({value: x})` throws `Unknown operation: value`. -/
theorem value_key_payload_breaks_shape_equivalence :
    evaluate 9 (.obj [ ("uppercase", .obj [ ("value", .str "hi")])]) []
      = (.ok (.str "HI"), [])
    ∧ evaluate 9 (.obj [ ("uppercase", .obj [ ("value", .obj [ ("value", .str "hi")])])]) []
      = (.error "Unknown operation: value", [])
    ∧ (Except.ok (JVal.str "HI") : Except String JVal) ≠ .error "Unknown operation: value" :=
  ⟨rfl, rfl, by simp⟩

/-- The direct payload form of `extractValue` coincides with plain
evaluation whenever the payload is not a non-array object carrying a
`value` key. -/
theorem extractValue_direct (ev : JVal → Env → EvalRes) (x : JVal) (env : Env)
    (h : ∀ fs, x = .obj fs → lookupField fs "value" = none) :
    extractValue ev x env = ev x env := by
  cases x with
  | obj fs => simp [extractValue, h fs rfl]
  | null => rfl
  | bool b => rfl
  | num n => rfl
  | str s => rfl
  | arr xs => rfl

/-- C7 (amended).  The array-payload operations are unconditionally
shape-equivalent: `concat`/`and`/`or` treat `[x, y, ...]` and
`{values: [x, y, ...]}` identically for every element list, environment and
stack budget.  The single-value operations are shape-equivalent for every
payload except a non-array object that itself carries a `value` key — for
such payloads the direct form unwraps that inner field instead (see the
counterexample). -/
theorem dual_shape_equivalence :
    (∀ (fuel : Nat) (vs : List JVal) (env : Env),
        evaluate fuel (.obj [ ("concat", .arr vs)]) env
          = evaluate fuel (.obj [ ("concat", .obj [ ("values", .arr vs)])]) env
      ∧ evaluate fuel (.obj [ ("and", .arr vs)]) env
          = evaluate fuel (.obj [ ("and", .obj [ ("values", .arr vs)])]) env
      ∧ evaluate fuel (.obj [ ("or", .arr vs)]) env
          = evaluate fuel (.obj [ ("or", .obj [ ("values", .arr vs)])]) env)
    ∧ (∀ (fuel : Nat) (x : JVal) (env : Env),
        (∀ fs, x = .obj fs → lookupField fs "value" = none) →
        evaluate fuel (.obj [ ("uppercase", x)]) env
          = evaluate fuel (.obj [ ("uppercase", .obj [ ("value", x)])]) env
        ∧ evaluate fuel (.obj [ ("lowercase", x)]) env
          = evaluate fuel (.obj [ ("lowercase", .obj [ ("value", x)])]) env
        ∧ evaluate fuel (.obj [ ("length", x)]) env
          = evaluate fuel (.obj [ ("length", .obj [ ("value", x)])]) env
        ∧ evaluate fuel (.obj [ ("not", x)]) env
          = evaluate fuel (.obj [ ("not", .obj [ ("value", x)])]) env) := by
  constructor
  · intro fuel vs env
    cases fuel <;> exact ⟨rfl, rfl, rfl⟩
  · intro fuel x env h
    cases fuel with
    | zero => exact ⟨rfl, rfl, rfl, rfl⟩
    | succ n =>
      have hx := extractValue_direct (evaluate n) x env h
      refine ⟨?_, ?_, ?_, ?_⟩
      · show executeUppercase (evaluate n) x env
            = executeUppercase (evaluate n) (.obj [ ("value", x)]) env
        unfold executeUppercase
        rw [hx]; rfl
      · show executeLowercase (evaluate n) x env
            = executeLowercase (evaluate n) (.obj [ ("value", x)]) env
        unfold executeLowercase
        rw [hx]; rfl
      · show executeLength (evaluate n) x env
            = executeLength (evaluate n) (.obj [ ("value", x)]) env
        unfold executeLength
        rw [hx]; rfl
      · show executeNot (evaluate n) x env
            = executeNot (evaluate n) (.obj [ ("value", x)]) env
        unfold executeNot
        rw [hx]; rfl


/-- C7 (witness): the amended equivalences at a concrete payload without a
`value` key. -/
theorem dual_shape_equivalence_witness :
    evaluate 5 (.obj [ ("uppercase", JVal.str "q")]) []
      = evaluate 5 (.obj [ ("uppercase", .obj [ ("value", JVal.str "q")])]) [] :=
  (dual_shape_equivalence.2 5 (.str "q") [] (fun _ hfs => by cases hfs)).1

/-! ## Claim C8: `equals` semantics -/

/-- C8 (counterexample).  `equals` uses JavaScript `===`, which compares
arrays by reference: two separately constructed sequences of identical type
and content — here both sides evaluate the literal `[1]` — compare `false`,
where the claim requires `true` for every pair of identical result values
including sequences. -/
theorem equals_on_identical_sequences_is_false :
    evaluate 9 (.obj [ ("equals", .obj [ ("left", .arr [ .num 1]),
        ("right", .arr [ .num 1])])]) []
      = (.ok (.bool false), [])
    ∧ (JVal.arr [ .num 1]) = (JVal.arr [ .num 1]) :=
  ⟨rfl, rfl⟩

/-- Strict equality decides propositional equality on primitive results. -/
theorem jsStrictEq_prim_iff (l r : JVal) (hl : isPrim l = true) (hr : isPrim r = true) :
    jsStrictEq l r = true ↔ l = r := by
  cases l <;> cases r <;> simp_all [isPrim, jsStrictEq]

/-- C8 (amended).  `equals` evaluates `left` then `right` and compares with
`===`: for primitive results (`Null`/`Boolean`/`Number`/`String`) this is
`true` exactly when the two values agree in both type and content, with no
cross-type coercion — `"A"` vs `"a"` is `false`, `5` vs `5` is `true`,
`5` vs `"5"` is `false`.  Sequence results, however, compare by reference,
so separately constructed identical sequences yield `false` (see the
counterexample). -/
theorem equals_decides_primitive_equality :
    (∀ (fuel : Nat) (leftE rightE : JVal) (env env1 env2 : Env) (vl vr : JVal),
      evaluate fuel leftE env = (.ok vl, env1) →
      evaluate fuel rightE env1 = (.ok vr, env2) →
      isPrim vl = true → isPrim vr = true →
      evaluate (fuel + 1) (.obj [ ("equals", .obj [ ("left", leftE), ("right", rightE)])]) env
          = (.ok (.bool (jsStrictEq vl vr)), env2)
        ∧ (jsStrictEq vl vr = true ↔ vl = vr))
    ∧ evaluate 9 (.obj [ ("equals", .obj [ ("left", .str "A"), ("right", .str "a")])]) []
        = (.ok (.bool false), [])
    ∧ evaluate 9 (.obj [ ("equals", .obj [ ("left", .num 5), ("right", .num 5)])]) []
        = (.ok (.bool true), [])
    ∧ evaluate 9 (.obj [ ("equals", .obj [ ("left", .num 5), ("right", .str "5")])]) []
        = (.ok (.bool false), []) := by
  refine ⟨?_, rfl, rfl, rfl⟩
  intro fuel leftE rightE env env1 env2 vl vr h1 h2 hl hr
  refine ⟨?_, jsStrictEq_prim_iff vl vr hl hr⟩
  have hshape : evaluate (fuel + 1)
      (.obj [ ("equals", .obj [ ("left", leftE), ("right", rightE)])]) env
      = (match evaluate fuel leftE env with
         | (.ok l, e1) =>
           (match evaluate fuel rightE e1 with
            | (.ok r, e2) => (.ok (.bool (jsStrictEq l r)), e2)
            | (.error m, e2) => (.error m, e2))
         | (.error m, e1) => (.error m, e1)) := rfl
  rw [hshape, h1]
  show (match evaluate fuel rightE env1 with
        | (Except.ok r, e2) => ((Except.ok (JVal.bool (jsStrictEq vl r)), e2) : EvalRes)
        | (Except.error m, e2) => ((Except.error m, e2) : EvalRes))
      = ((Except.ok (JVal.bool (jsStrictEq vl vr)), env2) : EvalRes)
  rw [h2]

/-- C8 (witness): the amended general statement at `5` and `5`. -/
theorem equals_decides_primitive_equality_witness :
    evaluate 2 (.obj [ ("equals", .obj [ ("left", .num 5), ("right", .num 5)])]) []
      = (.ok (.bool (jsStrictEq (.num 5) (.num 5))), [])
    ∧ (jsStrictEq (.num 5) (.num 5) = true ↔ (JVal.num 5 : JVal) = .num 5) :=
  equals_decides_primitive_equality.1 1 (.num 5) (.num 5) [] [] [] (.num 5) (.num 5)
    rfl rfl rfl rfl

/-! ## Claim C2: the two evaluators -/

/-- C2 (counterexample).  The two evaluators do not share a dialect.  On the
variable reference `$x` with `x` bound to `1`, the strict evaluator succeeds
with `1`, yet the diagnostic evaluator — which has no `$`-sigil rule —
returns the string `"$x"` itself: a successful strict evaluation on which
the diagnostic result differs. -/
theorem evaluators_disagree_on_var_ref :
    evaluate 5 (.str "$x") [ ("x", .num 1)] = (.ok (.num 1), [ ("x", JVal.num 1)])
    ∧ (tryEvaluate 5 (.str "$x") [ ("x", .num 1)] [] "root").1 = .ok (.str "$x")
    ∧ JVal.str "$x" ≠ JVal.num 1 :=
  ⟨rfl, rfl, by simp⟩

/-- The strict evaluator returns every literal tree unchanged, without
touching the environment, given stack room for its depth. -/
theorem lit_eval_strict : ∀ (fuel : Nat) (e : JVal), litTree e = true → sizeJ e ≤ fuel →
    ∀ env : Env, evaluate fuel e env = (.ok e, env) := by
  intro fuel
  induction fuel with
  | zero =>
    intro e hl hs env
    exfalso
    cases e <;> simp [sizeJ] at hs
  | succ n ih =>
    intro e hl hs env
    cases e with
    | null => rfl
    | bool b => rfl
    | num k => rfl
    | str s =>
      have hns : startsWithDollar s = false := by simpa [litTree] using hl
      simp [evaluate, hns]
    | obj fs => simp [litTree] at hl
    | arr xs =>
      have hll : litTree.litList xs = true := by simpa [litTree] using hl
      have hsr : sizeJ.sizeList xs ≤ n := by simp [sizeJ] at hs; omega
      have helems : evalElems (evaluate n) xs env = (.ok xs, env) := by
        clear hl hs
        induction xs generalizing env with
        | nil => rfl
        | cons x rest ihr =>
          simp [litTree.litList] at hll
          have hsx : sizeJ x ≤ n := by simp [sizeJ.sizeList] at hsr; omega
          have hsr2 : sizeJ.sizeList rest ≤ n := by simp [sizeJ.sizeList] at hsr; omega
          simp [evalElems, ih x hll.1 hsx env, ihr env hll.2 hsr2]
      simp [evaluate, helems]

/-- The diagnostic evaluator also returns every literal tree unchanged,
whatever the context, tracker and route, given stack room for its depth. -/
theorem lit_eval_diag : ∀ (fuel : Nat) (e : JVal), litTree e = true → sizeJ e ≤ fuel →
    ∀ (ctx : Ctx) (tr : Coverage) (pre : String),
      ∃ tr2, tryEvaluate fuel e ctx tr pre = (.ok e, tr2) := by
  intro fuel
  induction fuel with
  | zero =>
    intro e hl hs
    exfalso
    cases e <;> simp [sizeJ] at hs
  | succ n ih =>
    intro e hl hs ctx tr pre
    cases e with
    | null => exact ⟨_, rfl⟩
    | bool b => exact ⟨_, rfl⟩
    | num k => exact ⟨_, rfl⟩
    | str s => exact ⟨_, rfl⟩
    | obj fs => simp [litTree] at hl
    | arr xs =>
      have hll : litTree.litList xs = true := by simpa [litTree] using hl
      have hsr : sizeJ.sizeList xs ≤ n := by simp [sizeJ] at hs; omega
      have helems : ∀ (tr0 : Coverage) (i : Nat),
          ∃ tr2, tryElems (tryEvaluate n) (fun j => pre ++ "[" ++ toString j ++ "]")
            xs ctx tr0 i = (.ok xs, tr2) := by
        clear hl hs
        induction xs with
        | nil => exact fun tr0 i => ⟨tr0, rfl⟩
        | cons x rest ihr =>
          intro tr0 i
          simp [litTree.litList] at hll
          have hsx : sizeJ x ≤ n := by simp [sizeJ.sizeList] at hsr; omega
          have hsr2 : sizeJ.sizeList rest ≤ n := by simp [sizeJ.sizeList] at hsr; omega
          obtain ⟨tr1, h1⟩ := ih x hll.1 hsx ctx tr0 (pre ++ "[" ++ toString i ++ "]")
          obtain ⟨tr2, h2⟩ := ihr hll.2 hsr2 tr1 (i + 1)
          exact ⟨tr2, by simp [tryElems, h1, h2]⟩
      obtain ⟨tr2, h2⟩ := helems (markCovered tr (generatePathId (.arr xs) pre)) 0
      exact ⟨tr2, by simp [tryEvaluate, tryEvaluateBody, h2]⟩

/-- C2 (amended).  The two evaluators implement different dialects (see the
counterexample) and agree exactly on the shared literal fragment: scalars
other than `$`-sigil strings, and sequences of such trees, which each
evaluator returns unchanged — the strict one leaving the environment intact
and the diagnostic one recording coverage on the side.  Outside that
fragment — variable references, operations, empty mappings — the two diverge
by design drift, so the claimed identical-value property does not hold. -/
theorem evaluators_agree_on_literal_trees (e : JVal) (fuel : Nat) (env : Env) (ctx : Ctx)
    (tr : Coverage) (pre : String) (hl : litTree e = true) (hs : sizeJ e ≤ fuel) :
    evaluate fuel e env = (.ok e, env) ∧ (tryEvaluate fuel e ctx tr pre).1 = .ok e := by
  refine ⟨lit_eval_strict fuel e hl hs env, ?_⟩
  obtain ⟨tr2, h2⟩ := lit_eval_diag fuel e hl hs ctx tr pre
  rw [h2]

/-- C2 (witness): both evaluators return the literal tree `[1, "ab"]`
unchanged. -/
theorem evaluators_agree_on_literal_trees_witness :
    evaluate 3 (.arr [ .num 1, .str "ab"]) [] = (.ok (.arr [ .num 1, .str "ab"]), [])
    ∧ (tryEvaluate 3 (.arr [ .num 1, .str "ab"]) [] [] "root").1
        = .ok (.arr [ .num 1, .str "ab"]) :=
  evaluators_agree_on_literal_trees (.arr [ .num 1, .str "ab"]) 3 [] [] [] "root"
    (by rfl) (by simp [sizeJ, sizeJ.sizeList])

/-! ## Claim C4: path identity between the passes -/

/-- C4 (counterexample).  Rebuilding the display tree against the Coverage
Set of one diagnostic pass does NOT mark nodes covered only when their path
identifier is in that set: the builder itself runs the diagnostic evaluator
to render display values, against the same tracker.  For `{if: true}` the
diagnostic pass records only the root identifier (its `if` handler requires
a sibling `then`/`else`, so it never descends), yet the rebuilt condition
child carries `covered = true`: the builder's own display-value evaluation
inserted `root.if:true` before the child was built. -/
theorem builder_marks_unvisited_node_covered :
    (tryEvaluate 5 (.obj [ ("if", .bool true)]) [] [] "root").2 = [ "root:\x7bif\x7d"]
    ∧ (buildLogicTree 5 (.obj [ ("if", .bool true)]) [] "root" [ "root:\x7bif\x7d"] "root").1
        = .ok (.mk ⟨ "if", "conditional", "true", .obj [ ("if", .bool true)], true⟩
            [.mk ⟨ "condition", "boolean", "true", .bool true, true⟩ []])
    ∧ "root.if:true" ∉ ([ "root:\x7bif\x7d"] : Coverage)
    ∧ generatePathId (.bool true) "root.if" = "root.if:true" :=
  ⟨rfl, rfl, by decide, rfl⟩

set_option maxHeartbeats 2000000 in
/-- Every success result of the mapping-node builder carries the covered
flag it was handed — each branch stamps the same `covered` argument into
the node it constructs. -/
theorem buildObjNode_ok_covered (evT : JVal → Ctx → Coverage → String → TryRes)
    (bld : JVal → Ctx → String → Coverage → String → BuildRes)
    (key : String) (value : JVal) (rest : List (String × JVal)) (context : Ctx)
    (label : String) (tr : Coverage) (pathPre : String) (covered : Bool)
    (raw : JVal) (node : TreeNode) (tr2 : Coverage)
    (h : buildObjNode evT bld key value rest context label tr pathPre covered raw
        = (.ok node, tr2)) :
    node.data.covered = covered := by
  unfold buildObjNode at h
  repeat' split at h
  all_goals first
    | (injection h with h1 h2; injection h1 with h1; subst h1; rfl)
    | (injection h with h1 h2; exact Except.noConfusion h1)

set_option maxHeartbeats 2000000 in
/-- C4 (amended).  Both passes compute path identifiers with the one
`generatePathId`, from the traversal route and the node's structural
signature only — never from evaluated results.  Each display node's covered
flag equals membership of its identifier in the tracker as handed to that
node's builder call; for the root of the rebuilt tree this is exactly
membership in the supplied Coverage Set, but beneath nodes whose handlers
re-run the diagnostic evaluator for display values the tracker may already
have grown beyond the original pass (see the counterexample), so the
claimed iff holds per node only against the tracker state at build time. -/
theorem builder_covered_flag_is_entry_membership (fuel : Nat) (e : JVal) (ctx : Ctx)
    (label : String) (tr tr2 : Coverage) (pre : String) (node : TreeNode)
    (h : buildLogicTree (fuel + 1) e ctx label tr pre = (.ok node, tr2)) :
    node.data.covered = true ↔ generatePathId e pre ∈ tr := by
  have hc : node.data.covered = isCovered tr (generatePathId e pre) := by
    simp only [buildLogicTree] at h
    repeat' split at h
    all_goals first
      | (injection h with h1 h2; injection h1 with h1; subst h1; rfl)
      | (injection h with h1 h2; exact Except.noConfusion h1)
      | (exact buildObjNode_ok_covered _ _ _ _ _ _ _ _ _ _ _ _ _ h)
  rw [hc]
  simp [isCovered]

/-- C4 (witness): the amended per-node rule at a concrete leaf whose
identifier is in the supplied set. -/
theorem builder_covered_flag_witness :
    ((TreeNode.mk ⟨ "root", "number", "5", .num 5, true⟩ []).data.covered = true
      ↔ "root:5" ∈ ([ "root:5"] : Coverage)) :=
  builder_covered_flag_is_entry_membership 2 (.num 5) [] "root" [ "root:5"] _ "root"
    (.mk ⟨ "root", "number", "5", .num 5, true⟩ []) rfl

/-! ## Claim C5: branch coverage of the `if`

Some string bookkeeping first: path identifiers are route strings, and the
route passed to an untaken branch can never be produced while evaluating the
taken one, because every identifier recorded under a route extends that
route textually. -/

/-- The character list of a concatenation. -/
theorem strData_append (a b : String) : (a ++ b).data = a.data ++ b.data := rfl

/-- String concatenation is associative. -/
theorem strAppend_assoc (a b c : String) : a ++ b ++ c = a ++ (b ++ c) := by
  cases a; cases b; cases c
  show String.mk _ = String.mk _
  rw [List.append_assoc]

/-- A common leading piece cancels. -/
theorem strAppend_left_cancel {pre a b : String} (h : pre ++ a = pre ++ b) : a = b := by
  have hd := congrArg String.data h
  rw [strData_append, strData_append] at hd
  have h2 := List.append_cancel_left hd
  cases a; cases b
  exact congrArg String.mk h2

/-- Concatenations whose left parts differ in their first character differ. -/
theorem strAppend_head_ne (a b x y : String) (c d : Char) (as bs : List Char)
    (ha : a.data = c :: as) (hb : b.data = d :: bs) (hne : c ≠ d) : a ++ x ≠ b ++ y := by
  intro h
  have hd := congrArg String.data h
  rw [strData_append, strData_append, ha, hb] at hd
  simp [List.cons_append] at hd
  exact hne hd.1

/-- Concatenations whose left parts differ in their second character differ. -/
theorem strAppend_head2_ne (a b x y : String) (c c2 d d2 : Char) (as bs : List Char)
    (ha : a.data = c :: c2 :: as) (hb : b.data = d :: d2 :: bs) (hne : c2 ≠ d2) :
    a ++ x ≠ b ++ y := by
  intro h
  have hd := congrArg String.data h
  rw [strData_append, strData_append, ha, hb] at hd
  simp [List.cons_append] at hd
  exact hne hd.2.1

/-- Membership after a mark: the old members, or the marked identifier. -/
theorem mem_markCovered {tr : Coverage} {p q : String} (h : q ∈ markCovered tr p) :
    q ∈ tr ∨ q = p := by
  unfold markCovered at h
  split at h
  · exact .inl h
  · rcases List.mem_append.mp h with h1 | h1
    · exact .inl h1
    · exact .inr (by simpa using h1)

/-- A path identifier is its route extended by a colon and the signature. -/
theorem generatePathId_shift (x : JVal) (p : String) :
    generatePathId x p = p ++ (":" ++ pathSig x) := by
  unfold generatePathId
  rw [strAppend_assoc]

/-- Identifiers added by an element loop extend the ambient route: each
element is evaluated under `mkPath i`, itself an extension of `pre`. -/
theorem tryElems_cov (ev : JVal → Ctx → Coverage → String → TryRes) (pre : String)
    (mkPath : Nat → String) (hmk : ∀ i, ∃ ext, mkPath i = pre ++ ext)
    (hev : ∀ e ctx cov p q, q ∈ (ev e ctx cov p).2 → q ∈ cov ∨ ∃ s, q = p ++ s) :
    ∀ (xs : List JVal) (ctx : Ctx) (cov : Coverage) (i : Nat) (q : String),
      q ∈ (tryElems ev mkPath xs ctx cov i).2 → q ∈ cov ∨ ∃ s, q = pre ++ s := by
  intro xs
  induction xs with
  | nil => exact fun ctx cov i q hq => .inl hq
  | cons x rest ih =>
    intro ctx cov i q hq
    have hstep : ∀ (q2 : String) (tr1 : Coverage) (r1 : Except Unit JVal),
        ev x ctx cov (mkPath i) = (r1, tr1) → q2 ∈ tr1 →
        q2 ∈ cov ∨ ∃ s, q2 = pre ++ s := by
      intro q2 tr1 r1 heq hq2
      rcases hev x ctx cov (mkPath i) q2 (by rw [heq]; exact hq2) with h | ⟨s, hs⟩
      · exact .inl h
      · obtain ⟨ext, hext⟩ := hmk i
        exact .inr ⟨ext ++ s, by rw [hs, hext, strAppend_assoc]⟩
    simp only [tryElems] at hq
    split at hq
    · rename_i v tr1 heq
      split at hq
      · rename_i vs tr2 heq2
        rcases ih ctx tr1 (i + 1) q (by rw [heq2]; exact hq) with h | h
        · exact hstep q tr1 (.ok v) heq h
        · exact .inr h
      · rename_i u tr2 heq2
        rcases ih ctx tr1 (i + 1) q (by rw [heq2]; exact hq) with h | h
        · exact hstep q tr1 (.ok v) heq h
        · exact .inr h
    · rename_i u tr1 heq
      exact hstep q tr1 (.error u) heq hq

/-- Identifiers added by the diagnostic binding loop extend the ambient
route: each binding is evaluated under `pre ++ ".let." ++ name`. -/
theorem tryLetBindings_cov (ev : JVal → Ctx → Coverage → String → TryRes) (pre : String)
    (hev : ∀ e ctx cov p q, q ∈ (ev e ctx cov p).2 → q ∈ cov ∨ ∃ s, q = p ++ s) :
    ∀ (bs : List (String × JVal)) (orig acc : Ctx) (cov : Coverage) (q : String),
      q ∈ (tryLetBindings ev bs orig acc cov pre).2 → q ∈ cov ∨ ∃ s, q = pre ++ s := by
  intro bs
  induction bs with
  | nil => exact fun orig acc cov q hq => .inl hq
  | cons b rest ih =>
    rcases b with ⟨bindName, bindValue⟩
    intro orig acc cov q hq
    have hstep : ∀ (q2 : String) (tr1 : Coverage) (r1 : Except Unit JVal),
        ev bindValue orig cov (pre ++ ".let." ++ bindName) = (r1, tr1) → q2 ∈ tr1 →
        q2 ∈ cov ∨ ∃ s, q2 = pre ++ s := by
      intro q2 tr1 r1 heq hq2
      rcases hev bindValue orig cov (pre ++ ".let." ++ bindName) q2
          (by rw [heq]; exact hq2) with h | ⟨s, hs⟩
      · exact .inl h
      · refine .inr ⟨".let." ++ (bindName ++ s), ?_⟩
        rw [hs, strAppend_assoc (pre ++ ".let.") bindName s,
          strAppend_assoc pre ".let." (bindName ++ s)]
    simp only [tryLetBindings] at hq
    split at hq
    · rename_i v tr1 heq
      rcases ih orig (setKey acc bindName v) tr1 q hq with h | h
      · exact hstep q tr1 (.ok v) heq h
      · exact .inr h
    · rename_i u tr1 heq
      exact hstep q tr1 (.error u) heq hq

set_option maxHeartbeats 1000000 in
/-- Identifiers added by one mapping-handler reduction extend the ambient
route. -/
theorem tryObjBody_cov (ev : JVal → Ctx → Coverage → String → TryRes)
    (hev : ∀ e ctx cov p q, q ∈ (ev e ctx cov p).2 → q ∈ cov ∨ ∃ s, q = p ++ s)
    (key : String) (value : JVal) (rest : List (String × JVal))
    (ctx : Ctx) (cov : Coverage) (pre : String) (q : String)
    (hq : q ∈ (tryObjBody ev key value rest ctx cov pre).2) :
    q ∈ cov ∨ ∃ s, q = pre ++ s := by
  unfold tryObjBody at hq
  by_cases c1 : key = "get" ∧ isStrJ value = true
  · rw [if_pos c1] at hq
    rcases hl : lookupField ctx (strVal value) with _ | v <;> rw [hl] at hq <;>
      exact .inl hq
  · rw [if_neg c1] at hq
    by_cases c2 : key = "concat" ∧ isArrJ value = true
    · rw [if_pos c2] at hq
      have hmk : ∀ i : Nat, ∃ ext, pre ++ ".concat[" ++ toString i ++ "]" = pre ++ ext := by
        intro i
        exact ⟨ ".concat[" ++ (toString i ++ "]"),
          by rw [strAppend_assoc (pre ++ ".concat[") (toString i) "]", strAppend_assoc]⟩
      split at hq
      · rename_i parts tr1 heq
        exact tryElems_cov ev pre _ hmk hev (arrItems value) ctx cov 0 q
          (by rw [heq]; exact hq)
      · rename_i u tr1 heq
        exact tryElems_cov ev pre _ hmk hev (arrItems value) ctx cov 0 q
          (by rw [heq]; exact hq)
    · rw [if_neg c2] at hq
      by_cases c3 : key = "uppercase"
      · rw [if_pos c3] at hq
        have hstep : ∀ (q2 : String) (tr1 : Coverage) (r1 : Except Unit JVal),
            ev value ctx cov (pre ++ ".uppercase") = (r1, tr1) → q2 ∈ tr1 →
            q2 ∈ cov ∨ ∃ s, q2 = pre ++ s := by
          intro q2 tr1 r1 heq hq2
          rcases hev value ctx cov (pre ++ ".uppercase") q2 (by rw [heq]; exact hq2)
            with h | ⟨s, hs⟩
          · exact .inl h
          · exact .inr ⟨ ".uppercase" ++ s, by rw [hs, strAppend_assoc]⟩
        split at hq <;> rename_i heq <;> exact hstep q _ _ heq hq
      · rw [if_neg c3] at hq
        by_cases c4 : key = "lowercase"
        · rw [if_pos c4] at hq
          have hstep : ∀ (q2 : String) (tr1 : Coverage) (r1 : Except Unit JVal),
              ev value ctx cov (pre ++ ".lowercase") = (r1, tr1) → q2 ∈ tr1 →
              q2 ∈ cov ∨ ∃ s, q2 = pre ++ s := by
            intro q2 tr1 r1 heq hq2
            rcases hev value ctx cov (pre ++ ".lowercase") q2 (by rw [heq]; exact hq2)
              with h | ⟨s, hs⟩
            · exact .inl h
            · exact .inr ⟨ ".lowercase" ++ s, by rw [hs, strAppend_assoc]⟩
          split at hq <;> rename_i heq <;> exact hstep q _ _ heq hq
        · rw [if_neg c4] at hq
          by_cases c5 : (((key, value) :: rest).map (fun f => f.1)).contains "if" = true
              ∧ ((((key, value) :: rest).map (fun f => f.1)).contains "then" = true
                ∨ (((key, value) :: rest).map (fun f => f.1)).contains "else" = true)
          · rw [if_pos c5] at hq
            have hstep5 : ∀ (q2 : String) (tr1 : Coverage) (r1 : Except Unit JVal),
                ev ((lookupField ((key, value) :: rest) "if").getD .null) ctx cov
                  (pre ++ ".if") = (r1, tr1) → q2 ∈ tr1 →
                q2 ∈ cov ∨ ∃ s, q2 = pre ++ s := by
              intro q2 tr1 r1 heq hq2
              rcases hev _ ctx cov (pre ++ ".if") q2 (by rw [heq]; exact hq2)
                with h | ⟨s, hs⟩
              · exact .inl h
              · exact .inr ⟨ ".if" ++ s, by rw [hs, strAppend_assoc]⟩
            split at hq
            · rename_i condV tr1 heq
              split at hq
              · rcases hth : lookupField ((key, value) :: rest) "then" with _ | thenE <;>
                  rw [hth] at hq
                · exact hstep5 q tr1 (.ok condV) heq hq
                · rcases hev thenE ctx tr1 (pre ++ ".then") q hq with h | ⟨s, hs⟩
                  · exact hstep5 q tr1 (.ok condV) heq h
                  · exact .inr ⟨ ".then" ++ s, by rw [hs, strAppend_assoc]⟩
              · rcases hel : lookupField ((key, value) :: rest) "else" with _ | elseE <;>
                  rw [hel] at hq
                · exact hstep5 q tr1 (.ok condV) heq hq
                · rcases hev elseE ctx tr1 (pre ++ ".else") q hq with h | ⟨s, hs⟩
                  · exact hstep5 q tr1 (.ok condV) heq h
                  · exact .inr ⟨ ".else" ++ s, by rw [hs, strAppend_assoc]⟩
            · rename_i u tr1 heq
              exact hstep5 q tr1 (.error u) heq hq
          · rw [if_neg c5] at hq
            by_cases c6 : key = "equals" ∧ isNullJ value = true
            · rw [if_pos c6] at hq
              exact .inl hq
            · rw [if_neg c6] at hq
              by_cases c7 : key = "equals" ∧ hasLeftRight value = true
              · rw [if_pos c7] at hq
                have hstep7 : ∀ (q2 : String) (tr1 : Coverage) (r1 : Except Unit JVal),
                    ev ((lookupField (objFields value) "left").getD .null) ctx cov
                      (pre ++ ".equals.left") = (r1, tr1) → q2 ∈ tr1 →
                    q2 ∈ cov ∨ ∃ s, q2 = pre ++ s := by
                  intro q2 tr1 r1 heq hq2
                  rcases hev _ ctx cov (pre ++ ".equals.left") q2 (by rw [heq]; exact hq2)
                    with h | ⟨s, hs⟩
                  · exact .inl h
                  · exact .inr ⟨ ".equals.left" ++ s, by rw [hs, strAppend_assoc]⟩
                split at hq
                · rename_i lv tr1 heq
                  split at hq
                  · rename_i rv tr2 heq2
                    rcases hev _ ctx tr1 (pre ++ ".equals.right") q (by rw [heq2]; exact hq)
                      with h | ⟨s, hs⟩
                    · exact hstep7 q tr1 (.ok lv) heq h
                    · exact .inr ⟨ ".equals.right" ++ s, by rw [hs, strAppend_assoc]⟩
                  · rename_i u tr2 heq2
                    rcases hev _ ctx tr1 (pre ++ ".equals.right") q (by rw [heq2]; exact hq)
                      with h | ⟨s, hs⟩
                    · exact hstep7 q tr1 (.ok lv) heq h
                    · exact .inr ⟨ ".equals.right" ++ s, by rw [hs, strAppend_assoc]⟩
                · rename_i u tr1 heq
                  exact hstep7 q tr1 (.error u) heq hq
              · rw [if_neg c7] at hq
                by_cases c8 : (((key, value) :: rest).map (fun f => f.1)).contains "let" = true
                    ∧ (((key, value) :: rest).map (fun f => f.1)).contains "in" = true
                · rw [if_pos c8] at hq
                  have hstepIn : ∀ (covx : Coverage),
                      (∀ q2, q2 ∈ covx → q2 ∈ cov ∨ ∃ s, q2 = pre ++ s) →
                      ∀ (ctxx : Ctx),
                      q ∈ (ev ((lookupField ((key, value) :: rest) "in").getD .null)
                            ctxx covx (pre ++ ".in")).2 →
                      q ∈ cov ∨ ∃ s, q = pre ++ s := by
                    intro covx hcovx ctxx hqx
                    rcases hev _ ctxx covx (pre ++ ".in") q hqx with h | ⟨s, hs⟩
                    · exact hcovx q h
                    · exact .inr ⟨ ".in" ++ s, by rw [hs, strAppend_assoc]⟩
                  rcases hlet : (lookupField ((key, value) :: rest) "let").getD .null
                    with _ | b | n | sv | xs | bs <;> rw [hlet] at hq
                  · exact .inl hq
                  · exact hstepIn cov (fun q2 h => .inl h) ctx hq
                  · exact hstepIn cov (fun q2 h => .inl h) ctx hq
                  · exact hstepIn cov (fun q2 h => .inl h) ctx hq
                  · exact hstepIn cov (fun q2 h => .inl h) ctx hq
                  · have hbs : ∀ (tr1 : Coverage) (r1 : Except Unit Ctx),
                        tryLetBindings ev bs ctx ctx cov pre = (r1, tr1) →
                        ∀ q2, q2 ∈ tr1 → q2 ∈ cov ∨ ∃ s, q2 = pre ++ s := by
                      intro tr1 r1 heq q2 hq2
                      exact tryLetBindings_cov ev pre hev bs ctx ctx cov q2
                        (by rw [heq]; exact hq2)
                    have hq9 : q ∈ ((match tryLetBindings ev bs ctx ctx cov pre with
                        | (.ok newContext, tr1) =>
                          ev ((lookupField ((key, value) :: rest) "in").getD .null)
                            newContext tr1 (pre ++ ".in")
                        | (.error u, tr1) => ((.error u, tr1) : TryRes)).2) := hq
                    split at hq9
                    · rename_i newCtx tr1 heq
                      exact hstepIn tr1 (hbs tr1 (.ok newCtx) heq) newCtx hq9
                    · rename_i u tr1 heq
                      exact hbs tr1 (.error u) heq q hq9
                · rw [if_neg c8] at hq
                  exact .inl hq

/-- Identifiers added by one body reduction extend the ambient route. -/
theorem tryEvaluateBody_cov (ev : JVal → Ctx → Coverage → String → TryRes)
    (hev : ∀ e ctx cov p q, q ∈ (ev e ctx cov p).2 → q ∈ cov ∨ ∃ s, q = p ++ s) :
    ∀ (e : JVal) (ctx : Ctx) (cov : Coverage) (pre : String) (q : String),
      q ∈ (tryEvaluateBody ev e ctx cov pre).2 → q ∈ cov ∨ ∃ s, q = pre ++ s := by
  intro e ctx cov pre q hq
  cases e with
  | null => exact .inl hq
  | bool b => exact .inl hq
  | num n => exact .inl hq
  | str s => exact .inl hq
  | arr items =>
    have hmk : ∀ i : Nat, ∃ ext, pre ++ "[" ++ toString i ++ "]" = pre ++ ext := by
      intro i
      exact ⟨ "[" ++ (toString i ++ "]"),
        by rw [strAppend_assoc (pre ++ "[") (toString i) "]", strAppend_assoc]⟩
    simp only [tryEvaluateBody] at hq
    split at hq
    · rename_i vs tr1 heq
      exact tryElems_cov ev pre _ hmk hev items ctx cov 0 q (by rw [heq]; exact hq)
    · rename_i u tr1 heq
      exact tryElems_cov ev pre _ hmk hev items ctx cov 0 q (by rw [heq]; exact hq)
  | obj fields =>
    cases fields with
    | nil => exact .inl hq
    | cons f rest =>
      rcases f with ⟨key, value⟩
      exact tryObjBody_cov ev hev key value rest ctx cov pre q hq

/-- Identifiers added by one diagnostic evaluation extend the ambient route:
the pass marks the node's own identifier (`pre ++ ":" ++ signature`) and
recurses only under textual extensions of `pre`. -/
theorem tryEvaluate_cov : ∀ (fuel : Nat) (e : JVal) (ctx : Ctx) (cov : Coverage)
    (pre q : String),
    q ∈ (tryEvaluate fuel e ctx cov pre).2 → q ∈ cov ∨ ∃ s, q = pre ++ s := by
  intro fuel
  induction fuel with
  | zero => exact fun e ctx cov pre q hq => .inl hq
  | succ n ih =>
    intro e ctx cov pre q hq
    have hq2 : q ∈ (tryEvaluateBody (tryEvaluate n) e ctx
        (markCovered cov (generatePathId e pre)) pre).2 := by
      have hq1 : q ∈ ((match tryEvaluateBody (tryEvaluate n) e ctx
          (markCovered cov (generatePathId e pre)) pre with
        | (.ok v, tr2) => ((.ok v, tr2) : TryRes)
        | (.error _, tr2) => (.ok (.str "<error>"), tr2)).2) := hq
      rcases hb : tryEvaluateBody (tryEvaluate n) e ctx
          (markCovered cov (generatePathId e pre)) pre with ⟨r, cov2⟩
      rw [hb] at hq1
      cases r with
      | ok v => exact hq1
      | error u => exact hq1
    rcases tryEvaluateBody_cov (tryEvaluate n) ih e ctx
        (markCovered cov (generatePathId e pre)) pre q hq2 with h | h
    · rcases mem_markCovered h with h1 | h1
      · exact .inl h1
      · exact .inr ⟨ ":" ++ pathSig e, by rw [h1]; exact generatePathId_shift e pre⟩
    · exact .inr h

/-- C5 (counterexample).  The claim's expression uses the strict dialect's
nested `if` payload.  The diagnostic evaluator's `if` handler requires flat
sibling `then`/`else` keys, so on `{if: {condition: true, then: "A",
else: "B"}}` it records only the root identifier and returns the `<if>`
placeholder: the `then` branch's identifier is absent from the Coverage Set,
where the claim requires it present. -/
theorem nested_if_records_no_branch :
    tryEvaluate 5 (.obj [ ("if", .obj [ ("condition", .bool true), ("then", .str "A"),
        ("else", .str "B")])]) [] [] "root"
      = (.ok (.str "<if>"), [ "root:\x7bif\x7d"])
    ∧ generatePathId (.str "A") "root.then" = "root.then:\"A\""
    ∧ "root.then:\"A\"" ∉ ([ "root:\x7bif\x7d"] : Coverage)
    ∧ "root.else:\"B\"" ∉ ([ "root:\x7bif\x7d"] : Coverage) :=
  ⟨rfl, rfl, by decide, by decide⟩

/-- C5 (amended).  In the diagnostic dialect's flat encoding
`{if: true, then: "A", else: "B"}`, one pass over any context records
exactly the root identifier, the condition's identifier and the `then`
branch's identifier: the `then` path is in the Coverage Set and the `else`
path is not.  In general the untaken side of a flat `if` is never inserted:
with a truthy condition, everything the pass adds extends either the node's
own route, the `.if` route or the `.then` route, and the `.else` identifier
extends none of them. -/
theorem flat_if_coverage_marks_taken_branch_only :
    (∀ ctx : Ctx,
      tryEvaluate 5 (.obj [ ("if", .bool true), ("then", .str "A"), ("else", .str "B")])
          ctx [] "root"
        = (.ok (.str "A"),
           [ "root:\x7belse,if,then\x7d", "root.if:true", "root.then:\"A\""]))
    ∧ generatePathId (.str "A") "root.then" = "root.then:\"A\""
    ∧ generatePathId (.str "B") "root.else" = "root.else:\"B\""
    ∧ "root.then:\"A\""
        ∈ ([ "root:\x7belse,if,then\x7d", "root.if:true", "root.then:\"A\""] : Coverage)
    ∧ "root.else:\"B\""
        ∉ ([ "root:\x7belse,if,then\x7d", "root.if:true", "root.then:\"A\""] : Coverage)
    ∧ (∀ (fuel : Nat) (c t e : JVal) (ctx : Ctx) (cov : Coverage) (pre : String)
        (rc : Except Unit JVal) (tr1 : Coverage),
        tryEvaluate fuel c ctx
            (markCovered cov
              (generatePathId (.obj [ ("if", c), ("then", t), ("else", e)]) pre))
            (pre ++ ".if") = (rc, tr1) →
        (∀ v, rc = .ok v → truthy v = true) →
        generatePathId e (pre ++ ".else") ∉ cov →
        generatePathId e (pre ++ ".else")
          ∉ (tryEvaluate (fuel + 1) (.obj [ ("if", c), ("then", t), ("else", e)])
              ctx cov pre).2) := by
  refine ⟨fun ctx => rfl, rfl, rfl, by decide, by decide, ?_⟩
  intro fuel c t e ctx cov pre rc tr1 hc hrc hnot hmem
  have hshape : tryEvaluate (fuel + 1) (.obj [ ("if", c), ("then", t), ("else", e)]) ctx cov pre
      = (match (match tryEvaluate fuel c ctx
                  (markCovered cov
                    (generatePathId (.obj [ ("if", c), ("then", t), ("else", e)]) pre))
                  (pre ++ ".if") with
              | (.ok condV, trc) =>
                if truthy condV = true then tryEvaluate fuel t ctx trc (pre ++ ".then")
                else tryEvaluate fuel e ctx trc (pre ++ ".else")
              | (.error u, trc) => ((.error u, trc) : TryRes)) with
         | (.ok v, tr2) => ((.ok v, tr2) : TryRes)
         | (.error _, tr2) => (.ok (.str "<error>"), tr2)) := rfl
  rw [hshape, hc] at hmem
  have heid : generatePathId e (pre ++ ".else") = pre ++ (".else" ++ (":" ++ pathSig e)) := by
    rw [generatePathId_shift, strAppend_assoc]
  have hfrom_cov1 : generatePathId e (pre ++ ".else") ∈ tr1 → False := by
    intro hin
    rcases tryEvaluate_cov fuel c ctx _ (pre ++ ".if") _ (by rw [hc]; exact hin)
      with h | ⟨s, hs⟩
    · rcases mem_markCovered h with h1 | h1
      · exact hnot h1
      · have h2 : pre ++ (".else" ++ (":" ++ pathSig e))
            = pre ++ (":" ++ pathSig (.obj [ ("if", c), ("then", t), ("else", e)])) := by
          rw [← heid, h1, generatePathId_shift]
        exact strAppend_head_ne ".else" ":" (":" ++ pathSig e)
          (pathSig (.obj [ ("if", c), ("then", t), ("else", e)])) '.' ':' _ _ rfl rfl
          (by decide) (strAppend_left_cancel h2)
    · have h2 : pre ++ (".else" ++ (":" ++ pathSig e)) = pre ++ (".if" ++ s) := by
        rw [← heid, hs, strAppend_assoc]
      exact strAppend_head2_ne ".else" ".if" (":" ++ pathSig e) s '.' 'e' '.' 'i' _ _
        rfl rfl (by decide) (strAppend_left_cancel h2)
  rcases rc with u | condV
  · exact hfrom_cov1 hmem
  · have hmem1 : generatePathId e (pre ++ ".else")
        ∈ ((match (if truthy condV = true
              then tryEvaluate fuel t ctx tr1 (pre ++ ".then")
              else tryEvaluate fuel e ctx tr1 (pre ++ ".else")) with
           | (.ok v, tr2) => ((.ok v, tr2) : TryRes)
           | (.error _, tr2) => (.ok (.str "<error>"), tr2)).2) := hmem
    rw [if_pos (hrc condV rfl)] at hmem1
    rcases h2 : tryEvaluate fuel t ctx tr1 (pre ++ ".then") with ⟨r2, tr2⟩
    rw [h2] at hmem1
    have hmem2 : generatePathId e (pre ++ ".else") ∈ tr2 := by
      cases r2 <;> simpa using hmem1
    rcases tryEvaluate_cov fuel t ctx tr1 (pre ++ ".then") _ (by rw [h2]; exact hmem2)
      with h | ⟨s, hs⟩
    · exact hfrom_cov1 h
    · have h3 : pre ++ (".else" ++ (":" ++ pathSig e)) = pre ++ (".then" ++ s) := by
        rw [← heid, hs, strAppend_assoc]
      exact strAppend_head2_ne ".else" ".then" (":" ++ pathSig e) s '.' 'e' '.' 't' _ _
        rfl rfl (by decide) (strAppend_left_cancel h3)

/-- C5 (witness): the general untaken-side statement at the concrete flat
`if` with condition `true` — the `else` identifier is not in the final
Coverage Set. -/
theorem flat_if_coverage_witness :
    generatePathId (.str "B") ("root" ++ ".else")
      ∉ (tryEvaluate 2 (.obj [ ("if", .bool true), ("then", .str "A"), ("else", .str "B")])
          [] [] "root").2 :=
  flat_if_coverage_marks_taken_branch_only.2.2.2.2.2 1 (.bool true) (.str "A") (.str "B")
    [] [] "root" (.ok (.bool true))
    [ "root:\x7belse,if,then\x7d", "root.if:true"] rfl
    (fun v hv => by cases hv; rfl) (by decide)

end Franka
